import Mathlib

/-!
Shallow embedding of the one-node-committee QoS consensus module
(QoSValidator, PBFTEngine, CommitteeNode) and proofs about it.

Conventions of the embedding:
* JavaScript numbers are modelled as rationals (`ℚ`); the literal `0.05`
  appears as `1/20` and timestamps are integers (milliseconds).
* JavaScript `Map`/`Set`/object dictionaries are modelled as association
  lists that preserve insertion order, with `jsMapSet` (replace-in-place)
  mirroring `Map.set` and `jsDedup` mirroring `new Set(...)` iteration.
* Optional / possibly-`undefined` fields are `Option`s.  JavaScript
  truthiness tests on strings compare against the empty string, and the
  guard `mediaSpecs.bitrate && mediaSpecs.bitrate <= 0` is rendered
  literally (a bitrate of `0` is falsy and skips the check).
* Cryptographic hashing is a parameter `hash : QoSProof → String`;
  signing is opaque (signatures are produced but never inspected).
-/

/-- Conflict classes returned by `analyzeConflictType` ('structural' | 'score' | 'none'). -/
inductive ConflictType where
  | structural
  | score
  | cnone
deriving DecidableEq, Repr

/-- A value extracted from a proof for majority tallying (`values: any[]` in
`resolveStructuralConflict`).  `vabsent` models JavaScript `undefined`,
`vnull` models `null`; `===` on these is constructor-wise equality. -/
inductive FieldVal where
  | vstr (s : String)
  | vbool (b : Bool)
  | vnum (q : ℚ)
  | vabsent
  | vnull
deriving DecidableEq, Repr

/-- `mediaSpecs` of a QoS proof.  `bitrate` is `Option` because the source
accesses it behind a truthiness guard and the TS type is `any`. -/
structure MediaSpecs where
  codec : String
  width : Int
  height : Int
  bitrate : Option ℚ
  hasAudio : Bool
deriving DecidableEq, Repr

/-- `videoQualityData`: overall score plus GOP-timestamp-indexed score strings. -/
structure VideoQualityData where
  overallScore : ℚ
  gopScores : List (String × String)
deriving DecidableEq, Repr

/-- `audioQualityData` (optional on a proof). -/
structure AudioQualityData where
  overallScore : ℚ
deriving DecidableEq, Repr

/-- One verifier's QoS attestation (`QoSProof` in models/types.ts).
`syncQualityData` is never read by the embedded code and is omitted. -/
structure QoSProof where
  id : Option String := none
  taskId : String
  verifierId : String
  timestamp : Int
  mediaSpecs : MediaSpecs
  videoQualityData : VideoQualityData
  audioQualityData : Option AudioQualityData := none
  signature : String
deriving DecidableEq, Repr

/-- The heterogeneous `details` payload of a `ValidationResult`.  Every field
the source ever writes is present as an `Option`, defaulting to absent. -/
structure VDetails where
  reason : Option String := none
  missingFields : Option (List String) := none
  score : Option ℚ := none
  expectedRange : Option String := none
  bitrate : Option ℚ := none
  error : Option String := none
  timestampVal : Option Int := none
  currentTime : Option Int := none
  maxAge : Option Int := none
  codecs : Option (List String) := none
  resolutions : Option (List String) := none
  bitrates : Option (List (Option ℚ)) := none
  averageBitrate : Option ℚ := none
  maxDeviation : Option ℚ := none
  hasAudioList : Option (List Bool) := none
  scores : Option (List ℚ) := none
  averageScore : Option ℚ := none
  threshold : Option ℚ := none
  outlierIndex : Option Nat := none
  outlierVerifier : Option String := none
  gopScoresList : Option (List ℚ) := none
  message : Option String := none
  verifiersCount : Option Nat := none
  majorityValue : Option FieldVal := none
  reliableVerifiers : Option (List String) := none
  unreliableVerifiers : Option (List String) := none
  valuesList : Option (List FieldVal) := none
  medianValue : Option ℚ := none
  allValues : Option (List ℚ) := none
  additionalInfo : Option String := none
  missingVerifiers : Option (List String) := none
  audioScores : Option (List (Option ℚ)) := none
deriving DecidableEq, Repr

/-- `ValidationResult` (models/types.ts). -/
structure ValidationResult where
  isValid : Bool
  hasConflict : Option Bool := none
  conflictingVerifiers : Option (List String) := none
  conflictType : Option ConflictType := none
  needsManualReview : Option Bool := none
  resolvedBy : Option String := none
  details : Option VDetails := none
deriving DecidableEq, Repr

/-- Empty details record, the target of `{...undefined, extra}` spreads. -/
def emptyDetails : VDetails := {}

/-- Substring test on character lists: does `s` contain `pat` as a
contiguous run?  Mirrors JavaScript `String.prototype.includes`. -/
def charsContain (pat : List Char) : List Char → Bool
  | [] => pat.isEmpty
  | c :: t => pat.isPrefixOf (c :: t) || charsContain pat t

/-- JavaScript `s.includes(pat)`. -/
def strContains (s pat : String) : Bool :=
  charsContain pat.toList s.toList

/-- First occurrence search: the remainder of `s` after the first
occurrence of `pat`, if any. -/
def charsAfter (pat : List Char) : List Char → Option (List Char)
  | [] => if pat.isEmpty then some [] else none
  | c :: t =>
    if pat.isPrefixOf (c :: t) then some ((c :: t).drop pat.length)
    else charsAfter pat t

/-- Insertion-ordered deduplication, mirroring iteration over a JS `Set`
built from a list (`Array.from(new Set(xs))`). -/
def jsDedup [DecidableEq α] (xs : List α) : List α :=
  xs.foldl (fun acc x => if x ∈ acc then acc else acc ++ [x]) []

/-- `new Set(xs).size`. -/
def jsSetSize [DecidableEq α] (xs : List α) : Nat :=
  (jsDedup xs).length

/-- Turn a list of options into a list of values when all are present.
Used where JavaScript arithmetic over an `undefined` entry would yield
`NaN` and hence no conflict (all `NaN` comparisons are false). -/
def seqOpts : List (Option α) → Option (List α)
  | [] => some []
  | none :: _ => none
  | some a :: t => (seqOpts t).map (a :: ·)

/-- `Math.abs`. -/
def jsAbs (q : ℚ) : ℚ := if q < 0 then -q else q

theorem jsAbs_eq_abs (q : ℚ) : jsAbs q = |q| := by
  unfold jsAbs
  by_cases h : q < 0
  · rw [if_pos h, abs_of_neg h]
  · rw [if_neg h, abs_of_nonneg (le_of_not_lt h)]

/-- The numeric value of a digit string. -/
def digitsVal (cs : List Char) : Nat :=
  cs.foldl (fun acc c => acc * 10 + (c.toNat - '0'.toNat)) 0

/-- Decimal-numeral parsing: models `Number.parseFloat` on the plain
decimal strings stored in `gopScores` (`none` models `NaN`).  The full
`parseFloat` grammar (exponents, prefixes) never occurs in this system. -/
def parseScore (s : String) : Option ℚ :=
  let sgn : ℚ × List Char :=
    match s.toList with
    | '-' :: rest => (-1, rest)
    | cs => (1, cs)
  let ip := sgn.2.takeWhile (·.isDigit)
  let rest := sgn.2.drop ip.length
  if ip.isEmpty then none
  else
    let ipv : ℚ := (digitsVal ip : ℚ)
    match rest with
    | [] => some (sgn.1 * ipv)
    | '.' :: fp =>
      if fp.all (·.isDigit) then
        some (sgn.1 * (ipv + (digitsVal fp : ℚ) / ((10 : ℚ) ^ fp.length)))
      else none
    | _ => none

/-- Lookup of a GOP score string by timestamp (JS object indexing). -/
def gopLookup (p : QoSProof) (ts : String) : Option String :=
  (p.videoQualityData.gopScores.find? (fun kv => kv.1 = ts)).map (·.2)

/-- `getGopScore`: the parsed score for a GOP timestamp, `none` for `NaN`
(missing key, empty string, or unparsable). -/
def getGopScore (p : QoSProof) (ts : String) : Option ℚ :=
  match gopLookup p ts with
  | none => none
  | some s => if s = "" then none else parseScore s

/-- `validateStructure`: required fields present (empty strings are falsy). -/
def validateStructure (proof : QoSProof) : ValidationResult :=
  let missing :=
    (if proof.taskId = "" then ["taskId"] else []) ++
    (if proof.verifierId = "" then ["verifierId"] else []) ++
    (if proof.signature = "" then ["signature"] else [])
  if missing.length > 0 then
    { isValid := false
      details := some { reason := some "证明数据结构不完整", missingFields := some missing } }
  else
    { isValid := true }

/-- `validateValueRanges`: score within `[0, 100]`; the bitrate guard is the
literal truthiness test `bitrate && bitrate <= 0` (so a bitrate of `0`,
being falsy, is not checked). -/
def validateValueRanges (proof : QoSProof) : ValidationResult :=
  let score := proof.videoQualityData.overallScore
  if score < 0 ∨ score > 100 then
    { isValid := false
      details := some { reason := some "视频质量评分超出合理范围", score := some score
                        expectedRange := some "0-100" } }
  else
    match proof.mediaSpecs.bitrate with
    | some br =>
      if br ≠ 0 ∧ br ≤ 0 then
        { isValid := false
          details := some { reason := some "媒体码率不合理", bitrate := some br } }
      else { isValid := true }
    | none => { isValid := true }

/-- One week in milliseconds. -/
def ONE_WEEK : Int := 7 * 24 * 60 * 60 * 1000

/-- `validateTimeLogic` at current time `now`. -/
def validateTimeLogic (now : Int) (proof : QoSProof) : ValidationResult :=
  if proof.timestamp > now then
    { isValid := false
      details := some { reason := some "时间戳验证失败", error := some "证明时间戳晚于当前时间"
                        timestampVal := some proof.timestamp, currentTime := some now } }
  else if now - proof.timestamp > ONE_WEEK then
    { isValid := false
      details := some { reason := some "时间戳验证失败", error := some "证明时间戳过期"
                        timestampVal := some proof.timestamp, currentTime := some now
                        maxAge := some ONE_WEEK } }
  else { isValid := true }

/-- `validateSignature`: only that the signature string is non-empty
(cryptographic verification is stubbed in the source). -/
def validateSignature (proof : QoSProof) : ValidationResult :=
  if proof.signature = "" then
    { isValid := false, details := some { reason := some "签名无效" } }
  else { isValid := true }

/-- `quickValidate`: structure, ranges, time, signature, then non-empty
`gopScores`; first failure wins. -/
def quickValidate (now : Int) (qosProof : QoSProof) : ValidationResult :=
  let s := validateStructure qosProof
  if ¬ s.isValid then s
  else
    let r := validateValueRanges qosProof
    if ¬ r.isValid then r
    else
      let t := validateTimeLogic now qosProof
      if ¬ t.isValid then t
      else
        let g := validateSignature qosProof
        if ¬ g.isValid then g
        else if qosProof.videoQualityData.gopScores.isEmpty then
          { isValid := false
            details := some { reason := some "视频质量数据缺少有效的GOP评分数据" } }
        else { isValid := true }

/-- The resolution string `${width}x${height}`. -/
def resString (spec : MediaSpecs) : String :=
  toString spec.width ++ "x" ++ toString spec.height

/-- `validateMediaSpecsConsistency`: codec, resolution, bitrate-vs-mean and
hasAudio agreement, in source order, first failure wins.  An absent bitrate
makes the JavaScript mean `NaN`, every comparison false and hence no
bitrate conflict; this is the `none` branch of `seqOpts`. -/
def validateMediaSpecsConsistency (proofs : List QoSProof) : ValidationResult :=
  let mediaSpecs := proofs.map (·.mediaSpecs)
  let codecs := mediaSpecs.map (·.codec)
  if jsSetSize codecs > 1 then
    { isValid := false, hasConflict := some true
      conflictingVerifiers := some (proofs.map (·.verifierId))
      details := some { reason := some "编码格式不一致", codecs := some (jsDedup codecs) } }
  else
    let resolutions := mediaSpecs.map resString
    if jsSetSize resolutions > 1 then
      { isValid := false, hasConflict := some true
        conflictingVerifiers := some (proofs.map (·.verifierId))
        details := some { reason := some "分辨率不一致", resolutions := some (jsDedup resolutions) } }
    else
      let bitrates := mediaSpecs.map (·.bitrate)
      let audioCheck :=
        let hasAudioVals := mediaSpecs.map (·.hasAudio)
        if jsSetSize hasAudioVals > 1 then
          { isValid := false, hasConflict := some true
            conflictingVerifiers := some (proofs.map (·.verifierId))
            details := some { reason := some "音频存在性不一致"
                              hasAudioList := some (jsDedup hasAudioVals) } }
        else ({ isValid := true } : ValidationResult)
      match seqOpts bitrates with
      | some brs =>
        let avgBitrate := brs.sum / (brs.length : ℚ)
        let maxDev := avgBitrate * (1 / 20)
        if brs.any (fun br => jsAbs (br - avgBitrate) > maxDev) then
          { isValid := false, hasConflict := some true
            conflictingVerifiers := some (proofs.map (·.verifierId))
            details := some { reason := some "码率差异过大", bitrates := some bitrates
                              averageBitrate := some avgBitrate, maxDeviation := some maxDev } }
        else audioCheck
      | none => audioCheck

/-- First proof whose overall score is more than 3 from the mean, with its
index (the scan order of the source loop). -/
def findOutlier (avg : ℚ) : List (QoSProof × ℚ) → Nat → Option (Nat × QoSProof)
  | [], _ => none
  | (p, sc) :: rest, i =>
    if jsAbs (sc - avg) > 3 then some (i, p) else findOutlier avg rest (i + 1)

/-- `findCommonGopTimestamps`: GOP timestamps of the first proof present in
every proof. -/
def findCommonGopTimestamps (proofs : List QoSProof) : List String :=
  match proofs with
  | [] => []
  | p :: _ =>
    (p.videoQualityData.gopScores.map (·.1)).filter
      (fun ts => proofs.all (fun q => (q.videoQualityData.gopScores.map (·.1)).contains ts))

/-- Scan the common GOP ids in order; report the first one whose (at least
two) parsed scores are not all equal, together with those scores. -/
def checkGops (proofs : List QoSProof) : List String → Option (String × List ℚ)
  | [] => none
  | gopId :: rest =>
    let validScores := (proofs.map (fun p => getGopScore p gopId)).filterMap id
    match validScores with
    | first :: others =>
      if validScores.length ≥ 2 ∧ (first :: others).any (fun sc => sc ≠ first) then
        some (gopId, first :: others)
      else checkGops proofs rest
    | [] => checkGops proofs rest

/-- `validateVideoQualityConsistency`: overall scores within 3 of the mean,
then exact agreement on every common GOP score. -/
def validateVideoQualityConsistency (proofs : List QoSProof) : ValidationResult :=
  let scores := proofs.map (·.videoQualityData.overallScore)
  let avgScore := scores.sum / (scores.length : ℚ)
  match findOutlier avgScore (proofs.zip scores) 0 with
  | some (i, p) =>
    { isValid := false, hasConflict := some true
      conflictingVerifiers := some [p.verifierId]
      details := some { reason := some "视频质量评分存在显著差异", scores := some scores
                        averageScore := some avgScore, threshold := some 3
                        outlierIndex := some i, outlierVerifier := some p.verifierId } }
  | none =>
    let hasSpecifiedGOPs := proofs.any (fun p => ¬ p.videoQualityData.gopScores.isEmpty)
    if hasSpecifiedGOPs then
      match checkGops proofs (findCommonGopTimestamps proofs) with
      | some (gopId, validScores) =>
        { isValid := false, hasConflict := some true
          conflictingVerifiers := some (proofs.map (·.verifierId))
          details := some { reason := some ("特定GOP(" ++ gopId ++ ")评分不一致")
                            gopScoresList := some validScores } }
      | none => { isValid := true }
    else { isValid := true }

/-- The audio overall score of a proof, `undefined` when audio data is absent. -/
def audioScoreOf (p : QoSProof) : Option ℚ :=
  p.audioQualityData.map (·.overallScore)

/-- `validateAudioConsistency`: agreement on audio absence, presence of
audio data everywhere, and exact equality of audio overall scores. -/
def validateAudioConsistency (proofs : List QoSProof) : ValidationResult :=
  let hasAudio := match proofs with | [] => false | p :: _ => p.mediaSpecs.hasAudio
  if hasAudio = false then
    if proofs.all (fun p => ¬ p.mediaSpecs.hasAudio) then { isValid := true }
    else
      { isValid := false, hasConflict := some true
        conflictingVerifiers := some (proofs.map (·.verifierId))
        details := some { reason := some "音频存在性报告不一致" } }
  else
    let missingAudioData := proofs.filter (fun p => p.audioQualityData.isNone)
    if missingAudioData.length > 0 then
      { isValid := false, hasConflict := some true
        conflictingVerifiers := some (missingAudioData.map (·.verifierId))
        details := some { reason := some "部分证明缺少音频质量数据"
                          missingVerifiers := some (missingAudioData.map (·.verifierId)) } }
    else
      let audioScores := proofs.map audioScoreOf
      match audioScores with
      | [] => { isValid := true }
      | first :: _ =>
        if audioScores.any (fun sc => sc ≠ first) then
          { isValid := false, hasConflict := some true
            conflictingVerifiers := some (proofs.map (·.verifierId))
            details := some { reason := some "音频质量评分不一致", audioScores := some audioScores } }
        else { isValid := true }

/-- `deepValidate`: at least two proofs, then media specs, video quality and
audio consistency in order; first failing component is returned. -/
def deepValidate (proofs : List QoSProof) : ValidationResult :=
  if proofs.length < 2 then
    { isValid := false, details := some { reason := some "证明数量不足，无法执行深度验证" } }
  else
    let specValidation := validateMediaSpecsConsistency proofs
    if ¬ specValidation.isValid then specValidation
    else
      let videoValidation := validateVideoQualityConsistency proofs
      if ¬ videoValidation.isValid then videoValidation
      else
        let audioValidation := validateAudioConsistency proofs
        if ¬ audioValidation.isValid then audioValidation
        else
          { isValid := true
            details := some { message := some "所有深度验证通过"
                              verifiersCount := some proofs.length } }

/-- `analyzeConflictType`: classify a deep-validation failure by substring
matching on its reason text. -/
def analyzeConflictType (result : ValidationResult) : ConflictType :=
  if ¬ (result.hasConflict.getD false) then .cnone
  else
    let reason := (result.details.bind (·.reason)).getD ""
    if strContains reason "编码格式不一致" ∨ strContains reason "分辨率不一致" ∨
        strContains reason "特定GOP" ∨ strContains reason "音频存在性不一致" ∨
        strContains reason "音频质量评分不一致" then
      .structural
    else if strContains reason "视频质量评分存在显著差异" ∨ strContains reason "码率差异过大" then
      .score
    else .structural

/-- Inject a possibly-`undefined` number into a tally value. -/
def optQToFV : Option ℚ → FieldVal
  | some q => .vnum q
  | none => .vabsent

/-- Inject a possibly-`undefined` string into a tally value. -/
def optStrToFV : Option String → FieldVal
  | some s => .vstr s
  | none => .vabsent

/-- Occurrence counts of the tally values in first-appearance order
(`valueCounts` built with a JS `Map`). -/
def bumpCount : List (FieldVal × Nat) → FieldVal → List (FieldVal × Nat)
  | [], v => [(v, 1)]
  | (w, c) :: t, v => if w = v then (w, c + 1) :: t else (w, c) :: bumpCount t v

/-- Build the full tally. -/
def countsInOrder (vs : List FieldVal) : List (FieldVal × Nat) :=
  vs.foldl bumpCount []

/-- The `maxCount`/`majorityValue` scan over the tally: strictly larger
counts win, iteration in insertion order, initial value `null`. -/
def maxCountAndValue (counts : List (FieldVal × Nat)) : Nat × FieldVal :=
  counts.foldl (fun acc vc => if vc.2 > acc.1 then (vc.2, vc.1) else acc) (0, FieldVal.vnull)

/-- `extractGopTimestampFromReason`: the regex `特定GOP\(([^)]+)\)` applied to
the reasons this system generates (a single occurrence with a non-empty id). -/
def extractGopTimestampFromReason (reason : String) : Option String :=
  match charsAfter "特定GOP(".toList reason.toList with
  | none => none
  | some rest =>
    let cap := rest.takeWhile (fun c => c ≠ ')')
    if cap.isEmpty then none
    else if (rest.drop cap.length).isEmpty then none
    else some (String.mk cap)

/-- `getValueByField`: re-read the conflicting field from a proof. -/
def getValueByField (proof : QoSProof) (field : String) : FieldVal :=
  if field = "codec" then .vstr proof.mediaSpecs.codec
  else if field = "resolution" then .vstr (resString proof.mediaSpecs)
  else if field = "hasAudio" then .vbool proof.mediaSpecs.hasAudio
  else if field = "audioScore" then optQToFV (audioScoreOf proof)
  else if field = "videoScore" then .vnum proof.videoQualityData.overallScore
  else if field = "bitrate" then optQToFV proof.mediaSpecs.bitrate
  else if field.startsWith "gopScore-" then
    optStrToFV (gopLookup proof (field.drop 9))
  else .vnull

/-- The reason-driven field/value extraction at the top of
`resolveStructuralConflict` (source order of the `includes` chain). -/
def structuralFieldValues (proofs : List QoSProof) (reason : String) : String × List FieldVal :=
  if strContains reason "编码格式不一致" then
    ("codec", proofs.map (fun p => .vstr p.mediaSpecs.codec))
  else if strContains reason "分辨率不一致" then
    ("resolution", proofs.map (fun p => .vstr (resString p.mediaSpecs)))
  else if strContains reason "音频存在性不一致" then
    ("hasAudio", proofs.map (fun p => .vbool p.mediaSpecs.hasAudio))
  else if strContains reason "特定GOP" then
    match extractGopTimestampFromReason reason with
    | some ts => ("gopScore-" ++ ts, proofs.map (fun p => optStrToFV (gopLookup p ts)))
    | none => ("", [])
  else if strContains reason "音频质量评分不一致" then
    ("audioScore", proofs.map (fun p => optQToFV (audioScoreOf p)))
  else ("", [])

/-- `resolveStructuralConflict`: extract the conflicting field, tally it
over `proofs`, and decide by majority (some value occurring at least
twice) or fall back to manual review. -/
def resolveStructuralConflict (proofs : List QoSProof)
    (initialResult : ValidationResult) : ValidationResult :=
  let reason := (initialResult.details.bind (·.reason)).getD ""
  let fv := structuralFieldValues proofs reason
  let field := fv.1
  let values := fv.2
  if field = "" ∨ values.length = 0 then
    { initialResult with
      isValid := false, needsManualReview := some true, resolvedBy := some "manual"
      details := some { (initialResult.details.getD emptyDetails) with
                        additionalInfo := some "无法识别具体冲突字段，需要人工审核" } }
  else
    let mc := maxCountAndValue (countsInOrder values)
    let maxCount := mc.1
    let majorityValue := mc.2
    if maxCount ≥ 2 then
      let reliableVerifiers :=
        (proofs.filter (fun p => getValueByField p field = majorityValue)).map (·.verifierId)
      let unreliableVerifiers :=
        (proofs.filter (fun p => getValueByField p field ≠ majorityValue)).map (·.verifierId)
      { isValid := true, resolvedBy := some "majority"
        details := some { message := some ("通过多数表决解决" ++ field ++ "冲突")
                          majorityValue := some majorityValue
                          reliableVerifiers := some reliableVerifiers
                          unreliableVerifiers := some unreliableVerifiers } }
    else
      { isValid := false, needsManualReview := some true, resolvedBy := some "manual"
        details := some { reason := some ("无法通过多数表决解决" ++ field ++ "冲突，需要人工审核")
                          valuesList := some values } }

/-- Stable insertion of `x` after all entries of key at most `key x`
(ascending order; JavaScript `Array.prototype.sort` is stable). -/
def insertByKey (key : α → ℚ) (x : α) : List α → List α
  | [] => [x]
  | y :: t => if key y ≤ key x then y :: insertByKey key x t else x :: y :: t

/-- Stable ascending sort by a rational key. -/
def sortByKey (key : α → ℚ) (l : List α) : List α :=
  l.foldl (fun acc x => insertByKey key x acc) []

/-- `resolveScoreConflict`: median-based statistical resolution.  The
`getD 0` on bitrates is harmless: a bitrate-conflict reason is only ever
produced when every bitrate is present. -/
def resolveScoreConflict (proofs : List QoSProof)
    (initialResult : ValidationResult) : ValidationResult :=
  let reason := (initialResult.details.bind (·.reason)).getD ""
  let fv : String × List ℚ :=
    if strContains reason "视频质量评分存在显著差异" then
      ("videoScore", proofs.map (·.videoQualityData.overallScore))
    else if strContains reason "码率差异过大" then
      ("bitrate", proofs.map (fun p => (p.mediaSpecs.bitrate).getD 0))
    else ("", [])
  let field := fv.1
  let values := fv.2
  if field = "" ∨ values.length = 0 then
    { initialResult with
      isValid := false, needsManualReview := some true, resolvedBy := some "manual"
      details := some { (initialResult.details.getD emptyDetails) with
                        additionalInfo := some "无法识别具体冲突字段，需要人工审核" } }
  else
    let sortedValues := sortByKey id values
    let medianValue := sortedValues.getD (sortedValues.length / 2) 0
    let deviations := values.map (fun v => jsAbs (v - medianValue))
    let sortedPairs := sortByKey (·.2) deviations.enum
    let closestIndices := (sortedPairs.take 2).map (·.1)
    let reliableVerifiers :=
      (proofs.enum.filter (fun ip => closestIndices.contains ip.1)).map (·.2.verifierId)
    let unreliableVerifiers :=
      (proofs.enum.filter (fun ip => ¬ closestIndices.contains ip.1)).map (·.2.verifierId)
    { isValid := true, resolvedBy := some "statistical"
      details := some { message := some ("通过统计方法解决" ++ field ++ "冲突")
                        medianValue := some medianValue
                        reliableVerifiers := some reliableVerifiers
                        unreliableVerifiers := some unreliableVerifiers
                        allValues := some values } }

/-- `resolveWithSupplementaryProof`.  The source computes the merged list
`[...originalProofs, supplementaryProof]` only in a commented-out line;
both resolvers receive `originalProofs` alone and the
`supplementaryProof` parameter is otherwise unused. -/
def resolveWithSupplementaryProof (originalProofs : List QoSProof)
    (supplementaryProof : QoSProof) (initialResult : ValidationResult) : ValidationResult :=
  let conflictType :=
    match initialResult.conflictType with
    | some ct => ct
    | none => analyzeConflictType initialResult
  if conflictType = ConflictType.structural then
    resolveStructuralConflict originalProofs initialResult
  else
    resolveScoreConflict originalProofs initialResult

/-- PBFT message kinds (`MessageType` in models/types.ts). -/
inductive MessageType where
  | prePrepare
  | prepare
  | commit
  | statusUpdate
  | supplementaryReady
  | supplementaryAck
deriving DecidableEq, Repr

/-- Consensus tag (`ConsensusType`). -/
inductive ConsensusType where
  | normal
  | conflict
deriving DecidableEq, Repr

/-- Engine phase (`ConsensusState`, numeric enum `0..3`). -/
inductive ConsensusState where
  | idle
  | prePrepared
  | prepared
  | committed
deriving DecidableEq, Repr

/-- The numeric value of a `ConsensusState`; the source compares states
with `<` and `>` on these numbers. -/
def csToNat : ConsensusState → Nat
  | .idle => 0
  | .prePrepared => 1
  | .prepared => 2
  | .committed => 3

/-- A PBFT protocol message.  `viewNumber`, `sequenceNumber` and `digest`
are optional in the TS interface but always set on messages this system
creates, so they are total here; `data` is the optional proof payload. -/
structure PBFTMessage where
  type : MessageType
  consensusType : ConsensusType
  viewNumber : Int
  sequenceNumber : Int
  nodeId : String
  taskId : String
  data : Option QoSProof := none
  digest : String
  signature : String
deriving DecidableEq, Repr

/-- `Map.get(k)` on an insertion-ordered association list. -/
def jsMapLookup [DecidableEq κ] (m : List (κ × β)) (k : κ) : Option β :=
  (m.find? (fun p => p.1 = k)).map (·.2)

/-- `Map.set(k, v)`: replace in place if the key exists, else append. -/
def jsMapSet [DecidableEq κ] (m : List (κ × β)) (k : κ) (v : β) : List (κ × β) :=
  if m.any (fun p => p.1 = k) then m.map (fun p => if p.1 = k then (k, v) else p)
  else m ++ [(k, v)]

/-- `Map.delete(k)`. -/
def jsMapDelete [DecidableEq κ] (m : List (κ × β)) (k : κ) : List (κ × β) :=
  m.filter (fun p => p.1 ≠ k)

/-- The message list stored under a `(view, seq)` key (`get(key) || []`,
or the list after the `if (!has(key)) set(key, [])` initialisation). -/
def getMsgs (m : List ((Int × Int) × List PBFTMessage)) (k : Int × Int) : List PBFTMessage :=
  (jsMapLookup m k).getD []

/-- Per-node PBFT engine state (the private fields of `PBFTEngine`). -/
structure EngineState where
  nodeId : String
  isLeader : Bool
  viewNumber : Int := 0
  sequenceNumber : Int := 0
  currentConsensusType : ConsensusType := .normal
  state : ConsensusState := .idle
  prepareMessages : List ((Int × Int) × List PBFTMessage) := []
  commitMessages : List ((Int × Int) × List PBFTMessage) := []
  pendingPrepareMessages : List ((Int × Int) × List PBFTMessage) := []
  pendingCommitMessages : List ((Int × Int) × List PBFTMessage) := []
  completedSequences : List Int := []
  currentProposal : Option QoSProof := none
  currentDigest : String := ""
  consensusThreshold : Nat
deriving DecidableEq, Repr

/-- The constructor's threshold: `2⌊(N−1)/3⌋ + 1`. -/
def thresholdOf (totalNodes : Nat) : Nat :=
  2 * ((totalNodes - 1) / 3) + 1

/-- A freshly constructed engine. -/
def mkEngine (nodeId : String) (isLeader : Bool) (totalNodes : Nat) : EngineState :=
  { nodeId := nodeId, isLeader := isLeader, consensusThreshold := thresholdOf totalNodes }

/-- `startConsensus` (leader only, from `Idle`): assign the next sequence
number, adopt the proposal and return a PrePrepare message. -/
def startConsensus (hash : QoSProof → String) (e : EngineState)
    (proof : QoSProof) (consensusType : ConsensusType) : EngineState × Option PBFTMessage :=
  if ¬ e.isLeader then (e, none)
  else if e.state ≠ ConsensusState.idle then (e, none)
  else
    let seq := e.sequenceNumber + 1
    let digest := hash proof
    let msg : PBFTMessage :=
      { type := .prePrepare, consensusType := consensusType, viewNumber := e.viewNumber
        taskId := proof.taskId, sequenceNumber := seq, nodeId := e.nodeId
        data := some proof, digest := digest, signature := "sig" }
    ({ e with sequenceNumber := seq, currentProposal := some proof, currentDigest := digest
              currentConsensusType := consensusType, state := .prePrepared }, some msg)

/-- `handlePrePrepare`: accepted in `Idle`, or by the leader in
`PrePrepared` (its own message).  Checks view and digest, adopts the
proposal (followers, or the leader for its own message), then stores its
own Prepare under the current `(view, seq)` key and returns it.  Note:
there is no `completedSequences` check in this handler. -/
def handlePrePrepare (hash : QoSProof → String) (e : EngineState)
    (message : PBFTMessage) : EngineState × Option PBFTMessage :=
  if e.state ≠ ConsensusState.idle ∧ ¬ (e.isLeader ∧ e.state = ConsensusState.prePrepared) then
    (e, none)
  else if message.viewNumber ≠ e.viewNumber then (e, none)
  else
    match message.data with
    | none => (e, none)
    | some d =>
      if hash d ≠ message.digest then (e, none)
      else
        let e1 :=
          if ¬ e.isLeader ∨ (e.isLeader ∧ message.nodeId = e.nodeId) then
            { e with currentProposal := some d, currentDigest := message.digest
                     viewNumber := message.viewNumber, sequenceNumber := message.sequenceNumber
                     state := .prePrepared, currentConsensusType := message.consensusType }
          else e
        let prepareMsg : PBFTMessage :=
          { taskId := message.taskId, type := .prepare
            consensusType := e1.currentConsensusType, viewNumber := e1.viewNumber
            sequenceNumber := e1.sequenceNumber, nodeId := e1.nodeId
            digest := e1.currentDigest, signature := "sig" }
        let key := (e1.viewNumber, e1.sequenceNumber)
        ({ e1 with prepareMessages :=
             jsMapSet e1.prepareMessages key (getMsgs e1.prepareMessages key ++ [prepareMsg]) },
         some prepareMsg)

/-- `storePendingPrepareMessage`: buffer a Prepare by `(view, seq)`,
deduplicated by sender. -/
def storePendingPrepareMessage (e : EngineState) (message : PBFTMessage) : EngineState :=
  let key := (message.viewNumber, message.sequenceNumber)
  let pendingMsgs := getMsgs e.pendingPrepareMessages key
  if pendingMsgs.any (fun m => m.nodeId = message.nodeId) then e
  else
    { e with pendingPrepareMessages :=
        jsMapSet e.pendingPrepareMessages key (pendingMsgs ++ [message]) }

/-- `storePendingCommitMessage`: buffer a Commit by `(view, seq)` (no
sender deduplication in the source). -/
def storePendingCommitMessage (e : EngineState) (message : PBFTMessage) : EngineState :=
  let key := (message.viewNumber, message.sequenceNumber)
  { e with pendingCommitMessages :=
      jsMapSet e.pendingCommitMessages key (getMsgs e.pendingCommitMessages key ++ [message]) }

/-- `handlePrepare`: view check, completed-sequence check, buffer when not
yet `PrePrepared`, drain the pending buffer when the node's own first
Prepare is in place, deduplicate by sender, and on reaching the threshold
transition to `Prepared` and emit (and self-store) a Commit. -/
def handlePrepare (e : EngineState) (message : PBFTMessage) : EngineState × Option PBFTMessage :=
  if message.viewNumber ≠ e.viewNumber then (e, none)
  else if message.sequenceNumber ∈ e.completedSequences then (e, none)
  else
    let key := (message.viewNumber, message.sequenceNumber)
    if csToNat e.state > csToNat ConsensusState.prePrepared then (e, none)
    else if csToNat e.state < csToNat ConsensusState.prePrepared then
      (storePendingPrepareMessage e message, none)
    else
      let cur := getMsgs e.prepareMessages key
      let drained : List PBFTMessage × List ((Int × Int) × List PBFTMessage) :=
        if message.nodeId = e.nodeId ∧ cur.length = 1 then
          (getMsgs e.pendingPrepareMessages key |>.foldl
             (fun acc m => if acc.any (fun x => x.nodeId = m.nodeId) then acc else acc ++ [m]) cur,
           jsMapDelete e.pendingPrepareMessages key)
        else (cur, e.pendingPrepareMessages)
      let lst := drained.1
      let lst2 := if lst.any (fun x => x.nodeId = message.nodeId) then lst else lst ++ [message]
      let e1 := { e with prepareMessages := jsMapSet e.prepareMessages key lst2
                         pendingPrepareMessages := drained.2 }
      if lst2.length ≥ e.consensusThreshold ∧ e.state = ConsensusState.prePrepared then
        let commitMsg : PBFTMessage :=
          { taskId := message.taskId, type := .commit
            consensusType := e.currentConsensusType, viewNumber := e.viewNumber
            sequenceNumber := e.sequenceNumber, nodeId := e.nodeId
            digest := e.currentDigest, signature := "sig" }
        ({ e1 with state := .prepared
                   commitMessages :=
                     jsMapSet e1.commitMessages key (getMsgs e1.commitMessages key ++ [commitMsg]) },
         some commitMsg)
      else (e1, none)

/-- Result of `handleCommit`.  The source fires the consensus callback
before resetting the engine; `engine` is the state as the callback sees
it, `event` the callback's arguments, `reached` whether the caller must
apply `resetForNextConsensus` afterwards. -/
structure CommitResult where
  engine : EngineState
  event : Option (QoSProof × ConsensusType)
  reached : Bool
deriving DecidableEq, Repr

/-- `checkCommitConsensus`: on reaching the threshold in `Prepared`, move
to `Committed`, record the engine's current sequence number as completed
and surface the consensus event. -/
def checkCommitConsensus (e : EngineState) (key : Int × Int) : CommitResult :=
  if (getMsgs e.commitMessages key).length ≥ e.consensusThreshold ∧
      e.state = ConsensusState.prepared then
    let e1 :=
      { e with state := .committed
               completedSequences :=
                 if e.sequenceNumber ∈ e.completedSequences then e.completedSequences
                 else e.completedSequences ++ [e.sequenceNumber] }
    { engine := e1, event := e1.currentProposal.map (fun p => (p, e1.currentConsensusType))
      reached := true }
  else { engine := e, event := none, reached := false }

/-- `resetForNextConsensus`: back to `Idle`, clearing the proposal and the
pending-commit buffer of the current key. -/
def resetForNextConsensus (e : EngineState) : EngineState :=
  { e with state := .idle, currentProposal := none, currentDigest := ""
           currentConsensusType := .normal
           pendingCommitMessages := jsMapDelete e.pendingCommitMessages (e.viewNumber, e.sequenceNumber) }

/-- `handleCommit`: mirror of `handlePrepare` for the Commit phase,
finishing with `checkCommitConsensus`. -/
def handleCommit (e : EngineState) (message : PBFTMessage) : CommitResult :=
  if message.viewNumber ≠ e.viewNumber then { engine := e, event := none, reached := false }
  else if message.sequenceNumber ∈ e.completedSequences then
    { engine := e, event := none, reached := false }
  else
    let key := (message.viewNumber, message.sequenceNumber)
    if csToNat e.state > csToNat ConsensusState.prepared then
      { engine := e, event := none, reached := false }
    else if csToNat e.state < csToNat ConsensusState.prepared then
      { engine := storePendingCommitMessage e message, event := none, reached := false }
    else
      let cur := getMsgs e.commitMessages key
      let drained : List PBFTMessage × List ((Int × Int) × List PBFTMessage) :=
        if message.nodeId = e.nodeId ∧ cur.length = 1 then
          (getMsgs e.pendingCommitMessages key |>.foldl
             (fun acc m => if acc.any (fun x => x.nodeId = m.nodeId) then acc else acc ++ [m]) cur,
           jsMapDelete e.pendingCommitMessages key)
        else (cur, e.pendingCommitMessages)
      let lst := drained.1
      let lst2 := if lst.any (fun x => x.nodeId = message.nodeId) then lst else lst ++ [message]
      let e1 := { e with commitMessages := jsMapSet e.commitMessages key lst2
                         pendingCommitMessages := drained.2 }
      checkCommitConsensus e1 key

/-- Task pipeline states (`TaskProcessingState`). -/
inductive TaskProcessingState where
  | pending
  | validating
  | verified
  | consensus
  | rejected
  | conflict
  | expired
  | finalized
  | awaitingSupplementary
  | needsManualReview
  | validated
  | failed
deriving DecidableEq, Repr

/-- The `validationInfo` record of a task status (fields the pipeline writes). -/
structure ValidationInfo where
  conflictType : Option ConflictType := none
  conflictDetails : Option VDetails := none
  resolvedResult : Option ValidationResult := none
  supplementaryRequested : Option Bool := none
  supplementaryRequestTime : Option Int := none
  timeoutReason : Option String := none
  supplementaryResult : Option ValidationResult := none
  errorMessage : Option String := none
deriving DecidableEq, Repr

/-- The `result` record of a task status. -/
structure TaskResult where
  reason : Option String := none
  consensusTimestamp : Option Int := none
  txHash : Option String := none
deriving DecidableEq, Repr

/-- Per-task record (`TaskStatus`); ISO time strings are modelled as the
integer clock values they encode. -/
structure TaskStatus where
  taskId : String
  state : TaskProcessingState
  proofCount : Nat
  verifierIds : List String
  createdAt : Int
  updatedAt : Int
  supplementaryVerifierIds : Option (List String) := none
  validationInfo : Option ValidationInfo := none
  result : Option TaskResult := none
deriving DecidableEq, Repr

/-- `SupplementaryReadyMessage`. -/
structure SupplementaryReadyMessage where
  taskId : String
  supplementaryProofId : String
  nodeId : String
  timestamp : Int
  signature : String
deriving DecidableEq, Repr

/-- `SupplementaryAckMessage`. -/
structure SupplementaryAckMessage where
  taskId : String
  supplementaryProofId : String
  nodeId : String
  timestamp : Int
  signature : String
deriving DecidableEq, Repr

/-- Outbound traffic recorded by the model in place of the transport layer:
a broadcast PBFT message, a broadcast SupplementaryReady, or a
SupplementaryAck sent to a specific peer. -/
inductive OutMessage where
  | pbft (m : PBFTMessage)
  | ready (m : SupplementaryReadyMessage)
  | ack (target : String) (m : SupplementaryAckMessage)
deriving DecidableEq, Repr

/-- The state of one `CommitteeNode`: its engine plus the pipeline's maps.
`startedFinal` is proof instrumentation: it records each invocation of
`startFinalConsensus` (the source's method entry), newest last. -/
structure NodeState where
  nodeId : String
  isLeader : Bool
  totalNodes : Nat
  engine : EngineState
  taskStatuses : List (String × TaskStatus) := []
  taskProofs : List (String × List QoSProof) := []
  consensusQueue : List String := []
  processingConsensus : Bool := false
  currentConsensusTaskId : Option String := none
  pendingPrePrepareMessages : List (String × PBFTMessage) := []
  supplementaryReadyStatus : List (String × List String) := []
  pendingSupplementaryConsensus : List (String × QoSProof) := []
  pendingFinalPrePrepareMessages : List (String × PBFTMessage) := []
  outbox : List OutMessage := []
  startedFinal : List String := []
deriving DecidableEq, Repr

/-- A freshly constructed committee node. -/
def mkNode (nodeId : String) (isLeader : Bool) (totalNodes : Nat) : NodeState :=
  { nodeId := nodeId, isLeader := isLeader, totalNodes := totalNodes
    engine := mkEngine nodeId isLeader totalNodes }

/-- `storeProof`: append to the task's proof list. -/
def storeProof (s : NodeState) (taskId : String) (proof : QoSProof) : NodeState :=
  { s with taskProofs :=
      jsMapSet s.taskProofs taskId (((jsMapLookup s.taskProofs taskId).getD []) ++ [proof]) }

/-- `getProofsForTask`. -/
def getProofsForTask (s : NodeState) (taskId : String) : List QoSProof :=
  (jsMapLookup s.taskProofs taskId).getD []

/-- `taskStatuses.get(taskId)`. -/
def getStatus (s : NodeState) (taskId : String) : Option TaskStatus :=
  jsMapLookup s.taskStatuses taskId

/-- `taskStatuses.set(taskId, status)`.  JavaScript mutations of a status
object already stored in the map are modelled by an immediate `setStatus`
(the object is shared), making the source's trailing `set` calls no-ops. -/
def setStatus (s : NodeState) (taskId : String) (st : TaskStatus) : NodeState :=
  { s with taskStatuses := jsMapSet s.taskStatuses taskId st }

/-- Record an outbound message. -/
def sendOut (s : NodeState) (m : OutMessage) : NodeState :=
  { s with outbox := s.outbox ++ [m] }

/-- JS `Set.add` on an insertion-ordered list. -/
def setAdd (l : List String) (x : String) : List String :=
  if x ∈ l then l else l ++ [x]

/-- `requestSupplementaryValidation`: stamp the supplementary request flags.
The two-hour `setTimeout` only schedules `checkSupplementaryTimeout` and is
external to this state model. -/
def requestSupplementaryValidation (now : Int) (s : NodeState) (taskId : String) : NodeState :=
  match getStatus s taskId with
  | none => s
  | some status =>
    if status.state ≠ TaskProcessingState.awaitingSupplementary then s
    else
      let vi := status.validationInfo.getD {}
      let vi2 := { vi with supplementaryRequested := some true, supplementaryRequestTime := some now }
      setStatus s taskId { status with validationInfo := some vi2 }

/-- `handleConflictConsensusReached`: move the task to
`AwaitingSupplementary` and request supplementary validation. -/
def handleConflictConsensusReached (now : Int) (s : NodeState) (taskId : String) : NodeState :=
  match getStatus s taskId with
  | none => s
  | some status =>
    let s := setStatus s taskId
      { status with state := .awaitingSupplementary, updatedAt := now }
    requestSupplementaryValidation now s taskId

/-- `processConsensusQueue`, with explicit fuel (every recursive call in the
source first shortens the queue, so `queue.length + 1` fuel is enough).
The non-leader and successful-start exits leave `processingConsensus`
set, exactly as the source does. -/
def processConsensusQueue (hash : QoSProof → String) : Nat → NodeState → NodeState
  | 0, s => s
  | fuel + 1, s =>
    if s.processingConsensus ∨ s.consensusQueue.isEmpty then s
    else
      let s1 := { s with processingConsensus := true }
      match s1.consensusQueue.head? with
      | none => s1
      | some taskId =>
        let popped := { s1 with consensusQueue := s1.consensusQueue.tail,
                                processingConsensus := false }
        match getStatus s1 taskId with
        | none => processConsensusQueue hash fuel popped
        | some status =>
          if status.state = TaskProcessingState.awaitingSupplementary then
            processConsensusQueue hash fuel popped
          else if status.state ≠ TaskProcessingState.consensus then
            processConsensusQueue hash fuel popped
          else
            match getProofsForTask s1 taskId with
            | [] => processConsensusQueue hash fuel popped
            | p0 :: _ =>
              let consensusType :=
                match status.validationInfo with
                | some vi =>
                  match vi.conflictType with
                  | some _ => ConsensusType.conflict
                  | none => ConsensusType.normal
                | none => ConsensusType.normal
              let s2 := { s1 with currentConsensusTaskId := some taskId }
              if s2.isLeader then
                let ep := startConsensus hash s2.engine p0 consensusType
                let s3 := { s2 with engine := ep.1 }
                match ep.2 with
                | some prePrepareMsg =>
                  let s4 := sendOut s3 (.pbft prePrepareMsg)
                  let ep2 := handlePrePrepare hash s4.engine prePrepareMsg
                  let s5 := { s4 with engine := ep2.1 }
                  match ep2.2 with
                  | some prepareMsg => sendOut s5 (.pbft prepareMsg)
                  | none => s5
                | none =>
                  let s4 := setStatus s3 taskId { status with state := .validating }
                  processConsensusQueue hash fuel
                    { s4 with consensusQueue := s4.consensusQueue.tail,
                              processingConsensus := false }
              else s2

/-- `onConsensusReached` (the engine callback): Conflict consensus routes
through `handleConflictConsensusReached`, Normal consensus finalizes the
task; then pop the queue head if it is this task, clear the processing
flags and drain the queue. -/
def onConsensusReached (hash : QoSProof → String) (now : Int) (s : NodeState)
    (proof : QoSProof) (consensusType : ConsensusType) : NodeState :=
  let taskId := proof.taskId
  let s1 :=
    match consensusType with
    | .conflict => handleConflictConsensusReached now s taskId
    | .normal =>
      match getStatus s taskId with
      | none => s
      | some status =>
        let res := { (status.result.getD {}) with consensusTimestamp := some now }
        setStatus s taskId
          { status with state := .finalized, updatedAt := now, result := some res }
  let s2 :=
    if s1.consensusQueue.head? = some taskId then
      { s1 with consensusQueue := s1.consensusQueue.tail }
    else s1
  let s3 := { s2 with processingConsensus := false, currentConsensusTaskId := none }
  processConsensusQueue hash (s3.consensusQueue.length + 1) s3

/-- Every call site of `pbftEngine.handleCommit` in the pipeline: run the
engine handler; when consensus is reached the callback fires on the
pre-reset engine state and `resetForNextConsensus` runs afterwards,
exactly as in `checkCommitConsensus`. -/
def nodeHandleCommit (hash : QoSProof → String) (now : Int) (s : NodeState)
    (message : PBFTMessage) : NodeState :=
  let r := handleCommit s.engine message
  let s1 := { s with engine := r.engine }
  if r.reached then
    let s2 :=
      match r.event with
      | some pt => onConsensusReached hash now s1 pt.1 pt.2
      | none => s1
    { s2 with engine := resetForNextConsensus s2.engine }
  else s1

/-- `enqueueConsensusTask`: push the task id and start draining when idle
(the proof and consensus-type arguments are unused in the source beyond
logging). -/
def enqueueConsensusTask (hash : QoSProof → String) (s : NodeState) (taskId : String)
    (proof : QoSProof) (consensusType : ConsensusType) : NodeState :=
  let s1 := { s with consensusQueue := s.consensusQueue ++ [taskId] }
  if ¬ s1.processingConsensus then
    processConsensusQueue hash (s1.consensusQueue.length + 1) s1
  else s1

/-- `processPrePrepareMessage`: adopt `currentConsensusTaskId`; buffer the
message (replacing any previous one for the task) while fewer than two
local proofs exist; recognise a second-round (final) PrePrepare from the
local `Validated` / `AwaitingSupplementary` state; otherwise quick-validate
the payload, deep-validate the local proofs, record any conflict, move the
task to `Consensus` and hand the message to the engine. -/
def processPrePrepareMessage (hash : QoSProof → String) (now : Int) (s : NodeState)
    (message : PBFTMessage) : NodeState × Option PBFTMessage :=
  match message.data with
  | none => (s, none)
  | some d =>
    let taskId := message.taskId
    let localProofs := getProofsForTask s taskId
    let s := { s with currentConsensusTaskId := some taskId }
    if localProofs.length < 2 then
      ({ s with pendingPrePrepareMessages := jsMapSet s.pendingPrePrepareMessages taskId message },
       none)
    else
      match getStatus s taskId with
      | some st =>
        if message.consensusType = ConsensusType.normal ∧
            (st.state = TaskProcessingState.validated ∨
             st.state = TaskProcessingState.awaitingSupplementary) then
          if st.state = TaskProcessingState.validated then
            let s1 := setStatus s taskId { st with state := .consensus }
            let ep := handlePrePrepare hash s1.engine message
            ({ s1 with engine := ep.1 }, ep.2)
          else
            ({ s with pendingFinalPrePrepareMessages :=
                 jsMapSet s.pendingFinalPrePrepareMessages taskId message }, none)
        else
          let validationResult := quickValidate now d
          if ¬ validationResult.isValid then (s, none)
          else
            let deepValidationResult := deepValidate localProofs
            let vi := st.validationInfo.getD {}
            let st2 :=
              if deepValidationResult.isValid then
                { st with validationInfo := some vi, state := .consensus }
              else
                let ct := analyzeConflictType deepValidationResult
                { st with state := .consensus
                          validationInfo := some { vi with conflictType := some ct
                                                           conflictDetails := deepValidationResult.details } }
            let s1 := setStatus s taskId st2
            let ep := handlePrePrepare hash s1.engine message
            ({ s1 with engine := ep.1 }, ep.2)
      | none =>
        let validationResult := quickValidate now d
        if ¬ validationResult.isValid then (s, none)
        else
          let deepValidationResult := deepValidate localProofs
          let st0 : TaskStatus :=
            { taskId := taskId, state := .verified, proofCount := localProofs.length
              verifierIds := localProofs.map (·.verifierId), createdAt := now, updatedAt := now }
          let st2 :=
            if deepValidationResult.isValid then
              { st0 with validationInfo := some {}, state := .consensus }
            else
              let ct := analyzeConflictType deepValidationResult
              { st0 with state := .consensus
                         validationInfo := some { conflictType := some ct
                                                  conflictDetails := deepValidationResult.details } }
          let s1 := setStatus s taskId st2
          let ep := handlePrePrepare hash s1.engine message
          ({ s1 with engine := ep.1 }, ep.2)

/-- `checkPendingPrePrepareMessages`: once two local proofs exist, remove
the buffered PrePrepare and re-run it, broadcasting the resulting Prepare,
feeding it back as the node's own vote and likewise any resulting Commit.
(When reprocessing yields no Prepare the source broadcasts `null` and
feeds `{...null}` to `handlePrepare`, which drops it on the view check;
the net state effect is nothing.) -/
def checkPendingPrePrepareMessages (hash : QoSProof → String) (now : Int)
    (s : NodeState) (taskId : String) : NodeState :=
  match jsMapLookup s.pendingPrePrepareMessages taskId with
  | none => s
  | some pendingMessage =>
    if (getProofsForTask s taskId).length ≥ 2 then
      let s1 := { s with pendingPrePrepareMessages :=
                    jsMapDelete s.pendingPrePrepareMessages taskId }
      let pr := processPrePrepareMessage hash now s1 pendingMessage
      match pr.2 with
      | some response =>
        let s2 := sendOut pr.1 (.pbft response)
        let cp := handlePrepare s2.engine response
        let s3 := { s2 with engine := cp.1 }
        match cp.2 with
        | some commitMsg =>
          let s4 := sendOut s3 (.pbft commitMsg)
          nodeHandleCommit hash now s4 commitMsg
        | none => s3
      | none => pr.1
    else s

/-- `handleQoSProof`: quick-validate (silently dropping failures), create
the task record on first contact, drop duplicate verifiers, store the
proof and update the counters; then the leader runs deep validation and
enqueues consensus once two proofs exist, while a follower re-checks any
buffered PrePrepare.  Status-object mutations are written through to the
map immediately (the JS object is shared with the map); on the fresh-record
path the final `taskStatuses.set` stores the locally built record, as in
the source. -/
def handleQoSProof (hash : QoSProof → String) (now : Int) (s : NodeState)
    (proof : QoSProof) : NodeState :=
  let taskId := proof.taskId
  let verifierId := proof.verifierId
  if ¬ (quickValidate now proof).isValid then s
  else
    match getStatus s taskId with
    | none =>
      let s1 := storeProof s taskId proof
      let status : TaskStatus :=
        { taskId := taskId, state := .pending, proofCount := 1, verifierIds := [verifierId]
          createdAt := now, updatedAt := now }
      let status := if status.state = TaskProcessingState.pending
        then { status with state := .validating } else status
      -- `proofCount` is 1 here, so the leader's `>= 2` consensus branch is
      -- unreachable; a follower still re-checks its pending PrePrepare.
      let s2 := if s1.isLeader then s1 else checkPendingPrePrepareMessages hash now s1 taskId
      setStatus s2 taskId status
    | some st =>
      if verifierId ∈ st.verifierIds then s
      else
        let s1 := storeProof s taskId proof
        let st1 := { st with proofCount := st.proofCount + 1
                             verifierIds := st.verifierIds ++ [verifierId], updatedAt := now }
        let s2 := setStatus s1 taskId st1
        if s2.isLeader then
          let st2 := if st1.state = TaskProcessingState.pending
            then { st1 with state := .validating } else st1
          let s3 := setStatus s2 taskId st2
          if st2.proofCount ≥ 2 ∧ st2.state ≠ TaskProcessingState.consensus then
            let proofs := getProofsForTask s3 taskId
            if proofs.length ≥ 2 then
              let deepValidationResult := deepValidate proofs
              let st3 :=
                if ¬ deepValidationResult.isValid ∧ deepValidationResult.hasConflict.getD false then
                  let ct := analyzeConflictType deepValidationResult
                  { st2 with state := .consensus
                             validationInfo := some { (st2.validationInfo.getD {}) with
                                                      conflictType := some ct
                                                      conflictDetails := deepValidationResult.details } }
                else { st2 with state := .consensus }
              let s4 := setStatus s3 taskId st3
              let ct4 := if ¬ deepValidationResult.isValid ∧
                  deepValidationResult.hasConflict.getD false
                then ConsensusType.conflict else ConsensusType.normal
              match proofs with
              | [] => s4
              | p0 :: _ => enqueueConsensusTask hash s4 taskId p0 ct4
            else s3
          else s3
        else
          let st2 := if st1.state = TaskProcessingState.pending
            then { st1 with state := .validating } else st1
          let s3 := setStatus s2 taskId st2
          checkPendingPrePrepareMessages hash now s3 taskId

/-- `startFinalConsensus`: requires the task to be `Validated`; move it to
`Consensus`, clear the supplementary bookkeeping and run the normal
leader consensus start on the prepared payload (the head proof; its
`supplementaryInfo` annotation is never read by any handler).  The entry
is recorded in the `startedFinal` trace. -/
def startFinalConsensus (hash : QoSProof → String) (s : NodeState) (taskId : String)
    (consensusData : QoSProof) : NodeState :=
  let s := { s with startedFinal := s.startedFinal ++ [taskId] }
  match getStatus s taskId with
  | none => s
  | some status =>
    if status.state ≠ TaskProcessingState.validated then s
    else
      let s1 := setStatus s taskId { status with state := .consensus }
      let s2 := { s1 with currentConsensusTaskId := some taskId
                          supplementaryReadyStatus := jsMapDelete s1.supplementaryReadyStatus taskId
                          pendingSupplementaryConsensus := jsMapDelete s1.pendingSupplementaryConsensus taskId }
      let ep := startConsensus hash s2.engine consensusData ConsensusType.normal
      let s3 := { s2 with engine := ep.1 }
      match ep.2 with
      | some prePrepareMsg =>
        let s4 := sendOut s3 (.pbft prePrepareMsg)
        let ep2 := handlePrePrepare hash s4.engine prePrepareMsg
        let s5 := { s4 with engine := ep2.1 }
        match ep2.2 with
        | some prepareMsg => sendOut s5 (.pbft prepareMsg)
        | none => s5
      | none =>
        setStatus s3 taskId { status with state := .validated }

/-- `handleSupplementaryAckMessage` (leader only): ignore acks for tasks
already in `Consensus`/`Finalized`; add the sender and the leader itself
to the ready set; the required count is computed from the *hardcoded*
`totalNodes = 4` of the source (its comment notes it should come from
configuration), not from the node's constructed committee size; when
reached and a pending payload exists, invoke `startFinalConsensus` and
clear both maps. -/
def handleSupplementaryAckMessage (hash : QoSProof → String) (s : NodeState)
    (message : SupplementaryAckMessage) : NodeState :=
  if ¬ s.isLeader then s
  else
    let taskId := message.taskId
    let lateArrival : Bool :=
      match getStatus s taskId with
      | some status => status.state = TaskProcessingState.consensus ∨
          status.state = TaskProcessingState.finalized
      | none => false
    if lateArrival then s
    else
      let readyNodes := (jsMapLookup s.supplementaryReadyStatus taskId).getD []
      let readyNodes := setAdd readyNodes message.nodeId
      let requiredNodes := thresholdOf 4
      let readyNodes := setAdd readyNodes s.nodeId
      let s1 := { s with supplementaryReadyStatus :=
                    jsMapSet s.supplementaryReadyStatus taskId readyNodes }
      if readyNodes.length ≥ requiredNodes then
        match jsMapLookup s1.pendingSupplementaryConsensus taskId with
        | some pendingConsensusData =>
          let s2 := startFinalConsensus hash s1 taskId pendingConsensusData
          { s2 with pendingSupplementaryConsensus := jsMapDelete s2.pendingSupplementaryConsensus taskId
                    supplementaryReadyStatus := jsMapDelete s2.supplementaryReadyStatus taskId }
        | none => s1
      else s1

/-- `handleSupplementaryProof`: requires `AwaitingSupplementary` with at
least two stored originals; a quick-validation failure marks the task
`Failed` (recording the failure) without storing the proof; otherwise the
proof is stored (the stored list, aliased with the captured
`originalProofs` array, then already contains it when the resolver runs),
the counters and `supplementaryVerifierIds` grow, and the resolver's
outcome drives `Validated` (leader: prepare the final payload, broadcast
SupplementaryReady, seed the ready set; follower: replay a buffered final
PrePrepare or ack the leader), `NeedsManualReview`, or `Failed`. -/
def handleSupplementaryProof (hash : QoSProof → String) (now : Int) (s : NodeState)
    (taskId : String) (proof : QoSProof) : NodeState :=
  match getStatus s taskId with
  | none => s
  | some status =>
    if status.state ≠ TaskProcessingState.awaitingSupplementary then s
    else if (getProofsForTask s taskId).length < 2 then s
    else
      let validationResult := quickValidate now proof
      if ¬ validationResult.isValid then
        let vi := status.validationInfo.getD {}
        let sr : ValidationResult := { isValid := false, details := validationResult.details }
        let vi2 := { vi with supplementaryResult := some sr }
        setStatus s taskId
          { status with state := .failed, updatedAt := now, validationInfo := some vi2 }
      else
        let proof := if proof.id = none
          then { proof with id := some ("supplementary-" ++ taskId ++ "-" ++ toString now) }
          else proof
        let s1 := storeProof s taskId proof
        let status := { status with
          proofCount := status.proofCount + 1
          verifierIds := status.verifierIds ++ [proof.verifierId]
          updatedAt := now
          supplementaryVerifierIds :=
            some ((status.supplementaryVerifierIds.getD []) ++ [proof.verifierId]) }
        let s2 := setStatus s1 taskId status
        let conflictType :=
          match status.validationInfo.bind (·.conflictType) with
          | some ct => ct
          | none => ConflictType.structural
        let initialResult : ValidationResult :=
          { isValid := false, hasConflict := some true, conflictType := some conflictType
            details := status.validationInfo.bind (·.conflictDetails) }
        -- The JS `originalProofs` array (captured before the store) aliases
        -- the stored list, so at this call it already includes `proof`.
        let originalProofs := getProofsForTask s2 taskId
        let resolvedResult := resolveWithSupplementaryProof originalProofs proof initialResult
        let viR := { (status.validationInfo.getD {}) with resolvedResult := some resolvedResult }
        let status := { status with validationInfo := some viR }
        let s3 := setStatus s2 taskId status
        if resolvedResult.isValid then
          let status := { status with state := .validated }
          let s4 := setStatus s3 taskId status
          if s4.isLeader then
            let consensusData :=
              match getProofsForTask s4 taskId with
              | [] => proof
              | p0 :: _ => p0
            let s5 := { s4 with pendingSupplementaryConsensus :=
                          jsMapSet s4.pendingSupplementaryConsensus taskId consensusData }
            let readyMessage : SupplementaryReadyMessage :=
              { taskId := taskId, supplementaryProofId := proof.id.getD ""
                nodeId := s5.nodeId, timestamp := now, signature := "sig" }
            let s6 := sendOut s5 (.ready readyMessage)
            let ready := (jsMapLookup s6.supplementaryReadyStatus taskId).getD []
            { s6 with supplementaryReadyStatus :=
                jsMapSet s6.supplementaryReadyStatus taskId (setAdd ready s6.nodeId) }
          else
            match jsMapLookup s4.pendingFinalPrePrepareMessages taskId with
            | some pendingFinalPrePrepare =>
              let s5 := { s4 with pendingFinalPrePrepareMessages :=
                            jsMapDelete s4.pendingFinalPrePrepareMessages taskId }
              let pr := processPrePrepareMessage hash now s5 pendingFinalPrePrepare
              match pr.2 with
              | some response =>
                let s6 := sendOut pr.1 (.pbft response)
                let cp := handlePrepare s6.engine response
                let s7 := { s6 with engine := cp.1 }
                match cp.2 with
                | some commitMsg =>
                  let s8 := sendOut s7 (.pbft commitMsg)
                  nodeHandleCommit hash now s8 commitMsg
                | none => s7
              | none => pr.1
            | none =>
              let ackMessage : SupplementaryAckMessage :=
                { taskId := taskId, supplementaryProofId := proof.id.getD ""
                  nodeId := s4.nodeId, timestamp := now, signature := "sig" }
              sendOut s4 (.ack "leader" ackMessage)
        else if resolvedResult.needsManualReview.getD false then
          setStatus s3 taskId { status with state := .needsManualReview }
        else
          setStatus s3 taskId { status with state := .failed }

/-! ## Concrete fixtures for witnesses and counterexamples -/

/-- A stub hash function for concrete runs (the source's `calculateHash`
is an external crypto primitive, passed as a parameter throughout). -/
def stubHash : QoSProof → String := fun _ => "d"

/-- Fixture: a well-formed proof with the given verifier, codec, bitrate
and overall score (1920x1080, no audio, one GOP score, signed). -/
def sampleProof (vid codec : String) (br score : ℚ) : QoSProof :=
  { taskId := "task-1", verifierId := vid, timestamp := 1000
    mediaSpecs := { codec := codec, width := 1920, height := 1080
                    bitrate := some br, hasAudio := false }
    videoQualityData := { overallScore := score, gopScores := [("0", "86.2")] }
    signature := "sig" }

/-- The two conflicting original proofs of unit test 3.2 (codecs H.264 vs
H.265) and the supplementary H.264 proof. -/
def c1OriginalProofs : List QoSProof :=
  [sampleProof "v1" "H.264" 5000 85, sampleProof "v2" "H.265" 5000 85]

/-- The supplementary proof agreeing with `v1`. -/
def c1Supplementary : QoSProof := sampleProof "v3" "H.264" 5000 85

/-- The prior deep-validation result, tagged structural, as the pipeline
passes it to the resolver. -/
def c1Initial : ValidationResult :=
  { deepValidate c1OriginalProofs with conflictType := some ConflictType.structural }

/-- C1: `resolveWithSupplementaryProof`, called with the two original
proofs, the supplementary proof and the structural codec conflict, returns
the manual-review fallback — even though tallying the codec field over
originals together with the supplementary (as the claim, the spec and unit
test 3.2 state) yields the majority value H.264 with two occurrences.  The
function never adds its `supplementaryProof` argument to the tally: the
merge is commented out in the source. -/
theorem resolveSupplementary_ignores_supplementary_proof :
    (resolveWithSupplementaryProof c1OriginalProofs c1Supplementary c1Initial).isValid = false ∧
    (resolveWithSupplementaryProof c1OriginalProofs c1Supplementary c1Initial).needsManualReview
      = some true ∧
    (resolveWithSupplementaryProof c1OriginalProofs c1Supplementary c1Initial).resolvedBy
      = some "manual" ∧
    maxCountAndValue (countsInOrder (structuralFieldValues
        (c1OriginalProofs ++ [c1Supplementary])
        (((c1Initial.details).bind (·.reason)).getD "")).2)
      = (2, FieldVal.vstr "H.264") := by
  decide

/-! ## Supporting lemmas -/

theorem jsDedup_foldl_mem [DecidableEq α] (l : List α) :
    ∀ (acc : List α) (a : α),
      (a ∈ l.foldl (fun acc x => if x ∈ acc then acc else acc ++ [x]) acc) ↔ (a ∈ acc ∨ a ∈ l) := by
  induction l with
  | nil => simp
  | cons x t ih =>
    intro acc a
    simp only [List.foldl_cons]
    rw [ih]
    by_cases hx : x ∈ acc
    · simp only [hx, if_pos]
      constructor
      · rintro (h | h)
        · exact Or.inl h
        · exact Or.inr (List.mem_cons_of_mem _ h)
      · rintro (h | h)
        · exact Or.inl h
        · rcases List.mem_cons.mp h with rfl | h
          · exact Or.inl hx
          · exact Or.inr h
    · simp only [hx, if_neg, not_false_iff, List.mem_append, List.mem_singleton, List.mem_cons]
      tauto

theorem mem_jsDedup [DecidableEq α] {l : List α} {a : α} : a ∈ jsDedup l ↔ a ∈ l := by
  unfold jsDedup
  rw [jsDedup_foldl_mem]
  simp

theorem jsDedup_foldl_small [DecidableEq α] (x : α) (l : List α) :
    ∀ acc : List α, (∀ a ∈ l, a = x) → (∀ a ∈ acc, a = x) → acc.length ≤ 1 →
      ((l.foldl (fun acc y => if y ∈ acc then acc else acc ++ [y]) acc).length ≤ 1 ∧
       (∀ a ∈ l.foldl (fun acc y => if y ∈ acc then acc else acc ++ [y]) acc, a = x)) := by
  induction l with
  | nil => intro acc _ ha hl; exact ⟨hl, ha⟩
  | cons y t ih =>
    intro acc hall ha hl
    have hy : y = x := hall y (List.mem_cons_self _ _)
    have hall' : ∀ a ∈ t, a = x := fun a h => hall a (List.mem_cons_of_mem _ h)
    simp only [List.foldl_cons]
    by_cases hmem : y ∈ acc
    · simp only [hmem, if_pos]
      exact ih acc hall' ha hl
    · simp only [hmem, if_neg, not_false_iff]
      have hacc : acc = [] := by
        cases acc with
        | nil => rfl
        | cons b bs =>
          exfalso
          have hb : b = x := ha b (List.mem_cons_self _ _)
          have : bs = [] := by
            cases bs with
            | nil => rfl
            | cons c cs => simp at hl
          subst this
          exact hmem (by rw [hb, hy]; exact List.mem_singleton.mpr rfl)
      subst hacc
      refine ih [y] hall' ?_ (by simp)
      intro a h
      rw [List.mem_singleton.mp h, hy]

theorem jsSetSize_le_one_iff [DecidableEq α] (l : List α) :
    jsSetSize l ≤ 1 ↔ ∀ a ∈ l, ∀ b ∈ l, a = b := by
  constructor
  · intro h a ha b hb
    have ha' := mem_jsDedup.mpr ha
    have hb' := mem_jsDedup.mpr hb
    unfold jsSetSize at h
    cases hd : jsDedup l with
    | nil => rw [hd] at ha'; simp at ha'
    | cons c cs =>
      cases cs with
      | nil =>
        rw [hd] at ha' hb'
        rw [List.mem_singleton.mp ha', List.mem_singleton.mp hb']
      | cons d ds => rw [hd] at h; simp at h
  · intro h
    cases l with
    | nil => simp [jsSetSize, jsDedup]
    | cons x t =>
      have := jsDedup_foldl_small x (x :: t) []
        (fun a ha => h a ha x (List.mem_cons_self _ _)) (by simp) (by simp)
      exact this.1

theorem deepValidate_valid_parts {proofs : List QoSProof}
    (h : (deepValidate proofs).isValid = true) :
    2 ≤ proofs.length ∧ (validateMediaSpecsConsistency proofs).isValid = true ∧
    (validateVideoQualityConsistency proofs).isValid = true ∧
    (validateAudioConsistency proofs).isValid = true := by
  unfold deepValidate at h
  by_cases h1 : proofs.length < 2
  · rw [if_pos h1] at h; exact absurd h (by simp)
  rw [if_neg h1] at h
  by_cases h2 : (validateMediaSpecsConsistency proofs).isValid = true
  · rw [if_neg (by simp [h2])] at h
    by_cases h3 : (validateVideoQualityConsistency proofs).isValid = true
    · rw [if_neg (by simp [h3])] at h
      by_cases h4 : (validateAudioConsistency proofs).isValid = true
      · exact ⟨by omega, h2, h3, h4⟩
      · rw [if_pos (by simp [h4])] at h; exact absurd h h4
    · rw [if_pos (by simp [h3])] at h; exact absurd h h3
  · rw [if_pos (by simp [h2])] at h; exact absurd h h2

theorem mediaSpecs_valid_parts {proofs : List QoSProof}
    (h : (validateMediaSpecsConsistency proofs).isValid = true) :
    jsSetSize (proofs.map (fun p => p.mediaSpecs.codec)) ≤ 1 ∧
    jsSetSize (proofs.map (fun p => resString p.mediaSpecs)) ≤ 1 ∧
    jsSetSize (proofs.map (fun p => p.mediaSpecs.hasAudio)) ≤ 1 := by
  unfold validateMediaSpecsConsistency at h
  simp only [List.map_map, Function.comp_def] at h
  by_cases hc : jsSetSize (proofs.map (fun p => p.mediaSpecs.codec)) > 1
  · rw [if_pos hc] at h; exact absurd h (by simp)
  rw [if_neg hc] at h
  by_cases hr : jsSetSize (proofs.map (fun p => resString p.mediaSpecs)) > 1
  · rw [if_pos hr] at h; exact absurd h (by simp)
  rw [if_neg hr] at h
  refine ⟨by omega, by omega, ?_⟩
  by_cases ha : jsSetSize (proofs.map (fun p => p.mediaSpecs.hasAudio)) > 1
  · exfalso
    cases hs : seqOpts (proofs.map (fun p => p.mediaSpecs.bitrate)) with
    | none =>
      rw [hs] at h
      simp only [] at h
      rw [if_pos ha] at h
      exact absurd h (by simp)
    | some brs =>
      rw [hs] at h
      simp only [] at h
      by_cases hb : (brs.any (fun br =>
          decide (jsAbs (br - brs.sum / (brs.length : ℚ)) > brs.sum / (brs.length : ℚ) * (1 / 20)))) = true
      · rw [if_pos hb] at h; exact absurd h (by simp)
      · rw [if_neg hb] at h
        rw [if_pos ha] at h
        exact absurd h (by simp)
  · omega

theorem validateAudio_valid_parts {p : QoSProof} {rest : List QoSProof}
    (hp : p.mediaSpecs.hasAudio = true)
    (h : (validateAudioConsistency (p :: rest)).isValid = true) :
    (∀ q ∈ p :: rest, q.audioQualityData.isSome = true) ∧
    (∀ q ∈ p :: rest, audioScoreOf q = audioScoreOf p) := by
  unfold validateAudioConsistency at h
  dsimp only at h
  rw [if_neg (by simp [hp])] at h
  by_cases hmiss : ((p :: rest).filter (fun q => q.audioQualityData.isNone)).length > 0
  · rw [if_pos hmiss] at h; exact absurd h (by simp)
  · rw [if_neg hmiss] at h
    have hsome : ∀ q ∈ p :: rest, q.audioQualityData.isSome = true := by
      intro q hq
      by_cases hs : q.audioQualityData.isSome = true
      · exact hs
      · exfalso
        apply hmiss
        have hn : q.audioQualityData.isNone = true := by
          cases hqa : q.audioQualityData with
          | none => rfl
          | some a => rw [hqa] at hs; exact absurd rfl hs
        have : q ∈ (p :: rest).filter (fun q => q.audioQualityData.isNone) :=
          List.mem_filter.mpr ⟨hq, hn⟩
        exact List.length_pos.mpr (List.ne_nil_of_mem this)
    refine ⟨hsome, ?_⟩
    rw [List.map_cons] at h
    dsimp only at h
    by_cases hany : ((audioScoreOf p :: rest.map audioScoreOf).any
        (fun sc => decide (sc ≠ audioScoreOf p))) = true
    · rw [if_pos hany] at h; exact absurd h (by simp)
    · intro q hq
      have hmemmap : audioScoreOf q ∈ audioScoreOf p :: rest.map audioScoreOf := by
        rcases List.mem_cons.mp hq with rfl | hq2
        · exact List.mem_cons_self _ _
        · exact List.mem_cons_of_mem _ (List.mem_map_of_mem _ hq2)
      by_contra hne
      apply hany
      rw [List.any_eq_true]
      exact ⟨audioScoreOf q, hmemmap, by simpa using hne⟩

theorem validateAudio_valid_of_false {p : QoSProof} {rest : List QoSProof}
    (hall : ∀ q ∈ p :: rest, q.mediaSpecs.hasAudio = false) :
    (validateAudioConsistency (p :: rest)).isValid = true := by
  unfold validateAudioConsistency
  dsimp only
  rw [if_pos (hall p (List.mem_cons_self _ _))]
  rw [if_pos (by rw [List.all_eq_true]; intro q hq; simp [hall q hq])]

theorem validateAudio_valid_of_true {p : QoSProof} {rest : List QoSProof}
    (hp : p.mediaSpecs.hasAudio = true)
    (hsome : ∀ q ∈ p :: rest, q.audioQualityData.isSome = true)
    (hsc : ∀ q ∈ p :: rest, audioScoreOf q = audioScoreOf p) :
    (validateAudioConsistency (p :: rest)).isValid = true := by
  unfold validateAudioConsistency
  dsimp only
  rw [if_neg (by simp [hp])]
  have hmiss : ¬ ((p :: rest).filter (fun q => q.audioQualityData.isNone)).length > 0 := by
    intro hl
    rcases List.exists_mem_of_ne_nil _ (List.length_pos.mp hl) with ⟨q, hq⟩
    rcases List.mem_filter.mp hq with ⟨hq1, hq2⟩
    have := hsome q hq1
    cases hqa : q.audioQualityData with
    | none => rw [hqa] at this; exact absurd this (by simp)
    | some a => rw [hqa] at hq2; exact absurd hq2 (by simp)
  rw [if_neg hmiss]
  rw [List.map_cons]
  dsimp only
  rw [if_neg ?_]
  intro hany
  rw [List.any_eq_true] at hany
  rcases hany with ⟨sc, hmem, hne⟩
  rcases List.mem_cons.mp hmem with rfl | hmem2
  · simp at hne
  · rcases List.mem_map.mp hmem2 with ⟨q, hq, rfl⟩
    have := hsc q (List.mem_cons_of_mem _ hq)
    simp [this] at hne

/-- Sublist-stability of the one-value check on a mapped field. -/
theorem jsSetSize_map_subset {S T : List QoSProof} (f : QoSProof → α) [DecidableEq α]
    (hsub : ∀ x ∈ T, x ∈ S) (h : jsSetSize (S.map f) ≤ 1) :
    jsSetSize (T.map f) ≤ 1 := by
  rw [jsSetSize_le_one_iff] at h ⊢
  intro a ha b hb
  rcases List.mem_map.mp ha with ⟨x, hx, rfl⟩
  rcases List.mem_map.mp hb with ⟨y, hy, rfl⟩
  exact h _ (List.mem_map_of_mem f (hsub x hx)) _ (List.mem_map_of_mem f (hsub y hy))

/-- C5 (amended): deep validation of a set is inherited by subsets only for
the equality-based checks — codec, resolution, hasAudio agreement and the
audio-consistency check; the mean-relative bitrate and video-score checks
and the common-GOP check are not subset-stable (see the counterexample). -/
theorem deepValidate_subset_equality_checks (S T : List QoSProof)
    (hS : (deepValidate S).isValid = true) (hT : T.Sublist S) (hlen : 2 ≤ T.length) :
    jsSetSize (T.map (fun p => p.mediaSpecs.codec)) ≤ 1 ∧
    jsSetSize (T.map (fun p => resString p.mediaSpecs)) ≤ 1 ∧
    jsSetSize (T.map (fun p => p.mediaSpecs.hasAudio)) ≤ 1 ∧
    (validateAudioConsistency T).isValid = true := by
  obtain ⟨hSlen, hmedia, hvideo, haudio⟩ := deepValidate_valid_parts hS
  obtain ⟨hcodec, hres, haud⟩ := mediaSpecs_valid_parts hmedia
  have hsub : ∀ x ∈ T, x ∈ S := fun x hx => hT.subset hx
  have haudPair := (jsSetSize_le_one_iff _).mp haud
  refine ⟨jsSetSize_map_subset _ hsub hcodec, jsSetSize_map_subset _ hsub hres,
          jsSetSize_map_subset _ hsub haud, ?_⟩
  cases T with
  | nil => simp at hlen
  | cons q trest =>
    have hqS : q ∈ S := hsub q (List.mem_cons_self _ _)
    cases S with
    | nil => simp at hSlen
    | cons p srest =>
      have hpq : q.mediaSpecs.hasAudio = p.mediaSpecs.hasAudio :=
        haudPair _ (List.mem_map_of_mem _ hqS) _
          (List.mem_map_of_mem _ (List.mem_cons_self p srest))
      by_cases hq : q.mediaSpecs.hasAudio = true
      · have hp : p.mediaSpecs.hasAudio = true := by rw [← hpq]; exact hq
        obtain ⟨hsome, hsc⟩ := validateAudio_valid_parts hp haudio
        refine validateAudio_valid_of_true hq ?_ ?_
        · intro x hx; exact hsome x (hsub x hx)
        · intro x hx
          rw [hsc x (hsub x hx), ← hsc q hqS]
      · have hq' : q.mediaSpecs.hasAudio = false := by
          cases hqa : q.mediaSpecs.hasAudio
          · rfl
          · exact absurd hqa hq
        refine validateAudio_valid_of_false ?_
        intro x hx
        have := haudPair _ (List.mem_map_of_mem _ (hsub x hx)) _
          (List.mem_map_of_mem _ hqS)
        rw [this, hq']

/-- C5 proof fixture: agreeing media specs apart from the bitrate, no GOP
samples, no audio. -/
def c5Proof (vid : String) (br : ℚ) : QoSProof :=
  { taskId := "task-1", verifierId := vid, timestamp := 1000
    mediaSpecs := { codec := "H.264", width := 1920, height := 1080
                    bitrate := some br, hasAudio := false }
    videoQualityData := { overallScore := 85, gopScores := [] }
    signature := "sig" }

/-- The three-element subset of the C5 counterexample: bitrates 1050, 950,
950 around a subset mean of 2950/3. -/
def c5Smaller : List QoSProof :=
  [c5Proof "v1" 1050, c5Proof "v2" 950, c5Proof "v3" 950]

/-- The full set: adding a fourth proof at 1050 restores the mean to 1000,
putting every bitrate exactly at the 5% boundary (which passes). -/
def c5Bigger : List QoSProof := c5Smaller ++ [c5Proof "v4" 1050]

/-- C5 counterexample: deep validation succeeds on the four proofs, yet
fails (bitrate check against the shifted subset mean) on the three-element
subset. -/
theorem deepValidate_not_subset_monotone :
    (deepValidate c5Bigger).isValid = true ∧ c5Smaller.Sublist c5Bigger ∧
    2 ≤ c5Smaller.length ∧ (deepValidate c5Smaller).isValid = false := by
  refine ⟨?_, List.sublist_append_left _ _, by decide, ?_⟩ <;>
    norm_num [deepValidate, validateMediaSpecsConsistency, validateVideoQualityConsistency,
      validateAudioConsistency, c5Bigger, c5Smaller, c5Proof, jsSetSize, jsDedup, seqOpts,
      resString, jsAbs, findOutlier, findCommonGopTimestamps, checkGops, getGopScore, gopLookup,
      audioScoreOf, List.foldl, List.any, List.all, List.filter, List.zip, List.zipWith]

/-- Witness for the amended C5 theorem at the concrete four-element set and
its first two elements. -/
theorem deepValidate_subset_equality_checks_witness :
    jsSetSize ((c5Smaller.take 2).map (fun p => p.mediaSpecs.codec)) ≤ 1 ∧
    (validateAudioConsistency (c5Smaller.take 2)).isValid = true := by
  have hv : (deepValidate c5Bigger).isValid = true := by
    norm_num [deepValidate, validateMediaSpecsConsistency, validateVideoQualityConsistency,
      validateAudioConsistency, c5Bigger, c5Smaller, c5Proof, jsSetSize, jsDedup, seqOpts,
      resString, jsAbs, findOutlier, findCommonGopTimestamps, checkGops, getGopScore, gopLookup,
      audioScoreOf, List.foldl, List.any, List.all, List.filter, List.zip, List.zipWith]
  have h := deepValidate_subset_equality_checks c5Bigger (c5Smaller.take 2)
    hv (by decide) (by decide)
  exact ⟨h.1, h.2.2.2⟩

theorem seqOpts_all_isSome {l : List (Option ℚ)} (h : ∀ x ∈ l, x.isSome = true) :
    seqOpts l = some (l.map (fun x => x.getD 0)) := by
  induction l with
  | nil => rfl
  | cons x t ih =>
    have hx1 := h x (List.mem_cons_self _ _)
    cases hx : x with
    | none => rw [hx] at hx1; exact absurd hx1 (by simp)
    | some a =>
      unfold seqOpts
      rw [ih (fun y hy => h y (List.mem_cons_of_mem _ hy))]
      simp [hx]

theorem analyzeConflictType_bitrate_reason (r : ValidationResult)
    (hc : r.hasConflict = some true)
    (hr : r.details.bind (fun d => d.reason) = some "码率差异过大") :
    analyzeConflictType r = ConflictType.score := by
  unfold analyzeConflictType
  rw [hc, hr]
  decide

/-- C6: with at least two proofs agreeing on codec and resolution (and
bitrates present, as the data model requires), the media-consistency check
fails with the bitrate reason — classified `score` — exactly when some
bitrate deviates from the mean by strictly more than 5% of the mean; and
such a failure is exactly what `deepValidate` returns. -/
theorem bitrateCheck_fails_iff (proofs : List QoSProof)
    (h2 : 2 ≤ proofs.length)
    (hcodec : jsSetSize (proofs.map (fun p => p.mediaSpecs.codec)) ≤ 1)
    (hres : jsSetSize (proofs.map (fun p => resString p.mediaSpecs)) ≤ 1)
    (hbr : ∀ p ∈ proofs, (p.mediaSpecs.bitrate).isSome = true) :
    (((validateMediaSpecsConsistency proofs).isValid = false ∧
      ((validateMediaSpecsConsistency proofs).details.bind (fun d => d.reason))
        = some "码率差异过大" ∧
      analyzeConflictType (validateMediaSpecsConsistency proofs) = ConflictType.score) ↔
      (∃ br ∈ proofs.map (fun p => (p.mediaSpecs.bitrate).getD 0),
        jsAbs (br - (proofs.map (fun p => (p.mediaSpecs.bitrate).getD 0)).sum /
            ((proofs.map (fun p => (p.mediaSpecs.bitrate).getD 0)).length : ℚ)) >
          (proofs.map (fun p => (p.mediaSpecs.bitrate).getD 0)).sum /
            ((proofs.map (fun p => (p.mediaSpecs.bitrate).getD 0)).length : ℚ) * (1 / 20))) ∧
    ((validateMediaSpecsConsistency proofs).isValid = false →
      deepValidate proofs = validateMediaSpecsConsistency proofs) := by
  have hdeep : (validateMediaSpecsConsistency proofs).isValid = false →
      deepValidate proofs = validateMediaSpecsConsistency proofs := by
    intro hf
    unfold deepValidate
    rw [if_neg (by omega)]
    rw [if_pos (by simp [hf])]
  refine ⟨?_, hdeep⟩
  have hsome : ∀ x ∈ proofs.map (fun p => p.mediaSpecs.bitrate), x.isSome = true := by
    intro x hx
    rcases List.mem_map.mp hx with ⟨p, hp, rfl⟩
    exact hbr p hp
  unfold validateMediaSpecsConsistency
  simp only [List.map_map, Function.comp_def]
  rw [if_neg (by omega), if_neg (by omega)]
  rw [seqOpts_all_isSome hsome]
  simp only [List.map_map, Function.comp_def]
  set brs := proofs.map (fun p => (p.mediaSpecs.bitrate).getD 0) with hbrs
  by_cases hany : (brs.any (fun br =>
      decide (jsAbs (br - brs.sum / (brs.length : ℚ)) > brs.sum / (brs.length : ℚ) * (1 / 20)))) = true
  · rw [if_pos hany]
    constructor
    · intro _
      rw [List.any_eq_true] at hany
      rcases hany with ⟨br, hmem, hgt⟩
      exact ⟨br, hmem, by simpa using hgt⟩
    · intro _
      refine ⟨rfl, rfl, ?_⟩
      exact analyzeConflictType_bitrate_reason _ rfl rfl
  · rw [if_neg hany]
    constructor
    · rintro ⟨hf, hreason, -⟩
      exfalso
      by_cases ha : jsSetSize (proofs.map (fun p => p.mediaSpecs.hasAudio)) > 1
      · rw [if_pos ha] at hreason
        simp at hreason
      · rw [if_neg ha] at hf
        simp at hf
    · rintro ⟨br, hmem, hgt⟩
      exfalso
      apply hany
      rw [List.any_eq_true]
      exact ⟨br, hmem, by simpa using hgt⟩

/-- The score-conflict scenario of the repo's tests: bitrates 5000 and 5550
(11% apart) with identical codec and resolution. -/
def c6Proofs : List QoSProof :=
  [sampleProof "v1" "H.264" 5000 85, sampleProof "v2" "H.264" 5550 85]

/-- Witness for C6: the hypotheses hold at the 5000/5550 pair, the
deviation exceeds 5% of the mean, and the theorem yields the
score-classified failure. -/
theorem bitrateCheck_fails_iff_witness :
    (validateMediaSpecsConsistency c6Proofs).isValid = false ∧
    analyzeConflictType (validateMediaSpecsConsistency c6Proofs) = ConflictType.score := by
  have h := bitrateCheck_fails_iff c6Proofs (by decide) (by decide) (by decide) (by decide)
  have hl := h.1.mpr ⟨5550, by decide, by norm_num [c6Proofs, sampleProof, jsAbs]⟩
  exact ⟨hl.1, hl.2.2⟩

/-- C7 (amended): for a proof passing the structure check, the range step
fails exactly when the overall score leaves `[0, 100]` or the bitrate is
present and *strictly negative* — a present bitrate of exactly `0` is
falsy in the source's `bitrate && bitrate <= 0` guard and passes — and a
range failure is exactly what `quickValidate` returns. -/
theorem valueRanges_boundary (now : Int) (p : QoSProof)
    (hs : (validateStructure p).isValid = true) :
    ((validateValueRanges p).isValid = false ↔
      (p.videoQualityData.overallScore < 0 ∨ 100 < p.videoQualityData.overallScore ∨
        ∃ b, p.mediaSpecs.bitrate = some b ∧ b < 0)) ∧
    ((validateValueRanges p).isValid = false → quickValidate now p = validateValueRanges p) := by
  constructor
  · unfold validateValueRanges
    by_cases hscore : p.videoQualityData.overallScore < 0 ∨ p.videoQualityData.overallScore > 100
    · rw [if_pos hscore]
      constructor
      · intro _
        rcases hscore with h | h
        · exact Or.inl h
        · exact Or.inr (Or.inl h)
      · intro _; rfl
    · rw [if_neg hscore]
      push_neg at hscore
      cases hb : p.mediaSpecs.bitrate with
      | none =>
        dsimp only
        constructor
        · intro h; exact absurd h (by simp)
        · rintro (h | h | ⟨b, hb2, -⟩)
          · exact absurd h (by simp [not_lt.mpr hscore.1])
          · exact absurd h (by simp [not_lt.mpr hscore.2])
          · exact absurd hb2 (by simp)
      | some b =>
        dsimp only
        by_cases hneg : b ≠ 0 ∧ b ≤ 0
        · rw [if_pos hneg]
          constructor
          · intro _
            exact Or.inr (Or.inr ⟨b, rfl, lt_of_le_of_ne hneg.2 hneg.1⟩)
          · intro _; rfl
        · rw [if_neg hneg]
          constructor
          · intro h; exact absurd h (by simp)
          · rintro (h | h | ⟨b2, hb2, hlt⟩)
            · exact absurd h (by simp [not_lt.mpr hscore.1])
            · exact absurd h (by simp [not_lt.mpr hscore.2])
            · injection hb2 with hb3
              subst hb3
              exact absurd ⟨ne_of_lt hlt, le_of_lt hlt⟩ hneg
  · intro hf
    unfold quickValidate
    rw [if_neg (by simp [hs])]
    rw [if_pos (by simp [hf])]

/-- A structurally valid proof with `bitrate = 0` and score 50. -/
def c7ZeroBitrate : QoSProof := sampleProof "v1" "H.264" 0 50

/-- C7 counterexample: the claim says a present bitrate that is not
strictly positive fails the range step, but a bitrate of exactly `0`
passes it (JS truthiness in `bitrate && bitrate <= 0`). -/
theorem valueRanges_zero_bitrate_passes :
    (validateStructure c7ZeroBitrate).isValid = true ∧
    c7ZeroBitrate.mediaSpecs.bitrate = some 0 ∧
    ¬ ((0 : ℚ) > 0) ∧
    (validateValueRanges c7ZeroBitrate).isValid = true := by decide

/-- A structurally valid proof with a strictly negative bitrate. -/
def c7NegBitrate : QoSProof := sampleProof "v2" "H.264" (-5) 50

/-- Witness for the amended C7 theorem at a negative-bitrate proof. -/
theorem valueRanges_boundary_witness :
    (validateValueRanges c7NegBitrate).isValid = false ∧
    quickValidate 2000 c7NegBitrate = validateValueRanges c7NegBitrate := by
  have h := valueRanges_boundary 2000 c7NegBitrate (by decide)
  have hf := h.1.mpr (Or.inr (Or.inr ⟨-5, by decide, by decide⟩))
  exact ⟨hf, h.2 hf⟩

theorem jsMapLookup_jsMapSet_self [DecidableEq κ] (m : List (κ × β)) (k : κ) (v : β) :
    jsMapLookup (jsMapSet m k v) k = some v := by
  unfold jsMapSet
  by_cases h : m.any (fun p => p.1 = k) = true
  · rw [if_pos h]
    induction m with
    | nil => simp at h
    | cons p t ih =>
      by_cases hp : p.1 = k
      · simp [jsMapLookup, hp]
      · have h' : t.any (fun p => p.1 = k) = true := by
          simp only [List.any_cons, Bool.or_eq_true, decide_eq_true_eq] at h
          rcases h with h1 | h1
          · exact absurd h1 hp
          · exact h1
        have ih' := ih h'
        simp only [jsMapLookup, List.map_cons, if_neg hp, List.find?_cons,
          decide_eq_false hp] at ih' ⊢
        exact ih'
  · rw [if_neg h]
    induction m with
    | nil => simp [jsMapLookup]
    | cons p t ih =>
      have hp : ¬ p.1 = k := by
        intro hk
        exact h (by simp [List.any_cons, hk])
      have h' : ¬ t.any (fun p => p.1 = k) = true := by
        intro hk
        exact h (by simp [List.any_cons, hk])
      have ih' := ih h'
      simp only [jsMapLookup, List.cons_append, List.find?_cons, decide_eq_false hp] at ih' ⊢
      exact ih'

theorem jsMapLookup_jsMapSet_other [DecidableEq κ] (m : List (κ × β)) (k k2 : κ) (v : β)
    (hne : k2 ≠ k) : jsMapLookup (jsMapSet m k v) k2 = jsMapLookup m k2 := by
  have hkv : ¬ ((k, v).1 = k2) := fun hk => hne hk.symm
  unfold jsMapSet
  by_cases h : m.any (fun p => p.1 = k) = true
  · rw [if_pos h]
    clear h
    induction m with
    | nil => rfl
    | cons p t ih =>
      by_cases hp : p.1 = k
      · have hp2 : ¬ (p.1 = k2) := by
          intro hk
          exact hne (by rw [← hk, hp])
        simp only [jsMapLookup, List.map_cons, if_pos hp, List.find?_cons,
          decide_eq_false hkv, decide_eq_false hp2]
        simpa [jsMapLookup] using ih
      · simp only [jsMapLookup, List.map_cons, if_neg hp, List.find?_cons]
        cases hd : (decide (p.1 = k2)) with
        | true => rfl
        | false => simpa [jsMapLookup] using ih
  · rw [if_neg h]
    clear h
    induction m with
    | nil => simp [jsMapLookup, decide_eq_false hkv]
    | cons p t ih =>
      simp only [jsMapLookup, List.cons_append, List.find?_cons]
      cases hd : (decide (p.1 = k2)) with
      | true => rfl
      | false => simpa [jsMapLookup] using ih

theorem jsMapDelete_cons_drop [DecidableEq κ] {p : κ × β} {t : List (κ × β)} {k : κ}
    (hp : p.1 = k) : jsMapDelete (p :: t) k = jsMapDelete t k := by
  simp [jsMapDelete, List.filter_cons, hp]

theorem jsMapDelete_cons_keep [DecidableEq κ] {p : κ × β} {t : List (κ × β)} {k : κ}
    (hp : ¬ p.1 = k) : jsMapDelete (p :: t) k = p :: jsMapDelete t k := by
  simp [jsMapDelete, List.filter_cons, hp]

theorem jsMapLookup_jsMapDelete_self [DecidableEq κ] (m : List (κ × β)) (k : κ) :
    jsMapLookup (jsMapDelete m k) k = none := by
  induction m with
  | nil => rfl
  | cons p t ih =>
    by_cases hp : p.1 = k
    · rw [jsMapDelete_cons_drop hp]
      exact ih
    · rw [jsMapDelete_cons_keep hp]
      simp only [jsMapLookup, List.find?_cons, decide_eq_false hp]
      exact ih

theorem jsMapLookup_jsMapDelete_other [DecidableEq κ] (m : List (κ × β)) (k k2 : κ)
    (hne : k2 ≠ k) : jsMapLookup (jsMapDelete m k) k2 = jsMapLookup m k2 := by
  induction m with
  | nil => rfl
  | cons p t ih =>
    by_cases hp : p.1 = k
    · have hp2 : ¬ (p.1 = k2) := by
        intro hk
        exact hne (by rw [← hk, hp])
      rw [jsMapDelete_cons_drop hp, ih]
      simp only [jsMapLookup, List.find?_cons, decide_eq_false hp2]
    · rw [jsMapDelete_cons_keep hp]
      simp only [jsMapLookup, List.find?_cons]
      cases hd : (decide (p.1 = k2)) with
      | true => rfl
      | false => simpa [jsMapLookup] using ih

theorem mem_jsMapSet [DecidableEq κ] {m : List (κ × β)} {k : κ} {v : β} {x : κ × β}
    (hx : x ∈ jsMapSet m k v) : x ∈ m ∨ x = (k, v) := by
  unfold jsMapSet at hx
  by_cases h : m.any (fun p => p.1 = k) = true
  · rw [if_pos h] at hx
    rcases List.mem_map.mp hx with ⟨p, hp, hpe⟩
    by_cases hk : p.1 = k
    · rw [if_pos hk] at hpe; exact Or.inr hpe.symm
    · rw [if_neg hk] at hpe; exact Or.inl (hpe ▸ hp)
  · rw [if_neg h] at hx
    rcases List.mem_append.mp hx with h1 | h1
    · exact Or.inl h1
    · exact Or.inr (List.mem_singleton.mp h1)

theorem mem_jsMapDelete [DecidableEq κ] {m : List (κ × β)} {k : κ} {x : κ × β}
    (hx : x ∈ jsMapDelete m k) : x ∈ m :=
  (List.mem_filter.mp hx).1

/-- A follower engine that has already completed sequence 7 and reset to
`Idle`. -/
def c2Engine : EngineState :=
  { mkEngine "node-f1" false 4 with completedSequences := [7] }

/-- A redelivered PrePrepare for the completed sequence 7 with a matching
digest under `stubHash`. -/
def c2PrePrepare : PBFTMessage :=
  { type := .prePrepare, consensusType := .normal, viewNumber := 0, sequenceNumber := 7
    nodeId := "leader", taskId := "task-1", data := some (sampleProof "v1" "H.264" 5000 85)
    digest := "d", signature := "sig" }

/-- C2 counterexample: `handlePrePrepare` has no completed-sequence check,
so a redelivered PrePrepare for a completed sequence mutates the engine:
it re-adopts the proposal and moves the state back to `PrePrepared`. -/
theorem handlePrePrepare_ignores_completedSequences :
    (7 : Int) ∈ c2Engine.completedSequences ∧
    c2Engine.state = ConsensusState.idle ∧
    (handlePrePrepare stubHash c2Engine c2PrePrepare).1.state = ConsensusState.prePrepared ∧
    (handlePrePrepare stubHash c2Engine c2PrePrepare).1.currentProposal ≠ none ∧
    (handlePrePrepare stubHash c2Engine c2PrePrepare).2 ≠ none := by decide

/-- C2 (amended): a completed sequence suppresses every late *Prepare* and
*Commit* — the handlers return with the engine unchanged and no output —
but not PrePrepare messages (see the counterexample). -/
theorem completed_sequences_suppress_prepare_commit (e : EngineState) (m : PBFTMessage)
    (hc : m.sequenceNumber ∈ e.completedSequences) :
    handlePrepare e m = (e, none) ∧
    handleCommit e m = { engine := e, event := none, reached := false } := by
  constructor
  · unfold handlePrepare
    by_cases hv : m.viewNumber ≠ e.viewNumber
    · rw [if_pos hv]
    · rw [if_neg hv, if_pos hc]
  · unfold handleCommit
    by_cases hv : m.viewNumber ≠ e.viewNumber
    · rw [if_pos hv]
    · rw [if_neg hv, if_pos hc]

/-- A late Prepare for the completed sequence 7. -/
def c2Prepare : PBFTMessage :=
  { type := .prepare, consensusType := .normal, viewNumber := 0, sequenceNumber := 7
    nodeId := "node-f2", taskId := "task-1", digest := "d", signature := "sig" }

/-- Witness for the amended C2 theorem at the concrete engine. -/
theorem completed_sequences_suppress_witness :
    handlePrepare c2Engine c2Prepare = (c2Engine, none) ∧
    handleCommit c2Engine c2Prepare
      = { engine := c2Engine, event := none, reached := false } :=
  completed_sequences_suppress_prepare_commit c2Engine c2Prepare (by decide)

theorem getMsgs_jsMapSet_self (m : List ((Int × Int) × List PBFTMessage)) (k : Int × Int)
    (v : List PBFTMessage) : getMsgs (jsMapSet m k v) k = v := by
  unfold getMsgs
  rw [jsMapLookup_jsMapSet_self]
  rfl

theorem foldl_dedup_extends (pend : List PBFTMessage) :
    ∀ cur : List PBFTMessage,
      ∃ ex, pend.foldl
        (fun acc m => if acc.any (fun x => x.nodeId = m.nodeId) then acc else acc ++ [m]) cur
        = cur ++ ex := by
  induction pend with
  | nil => intro cur; exact ⟨[], by simp⟩
  | cons m t ih =>
    intro cur
    simp only [List.foldl_cons]
    by_cases h : cur.any (fun x => x.nodeId = m.nodeId) = true
    · rw [if_pos h]; exact ih cur
    · rw [if_neg h]
      rcases ih (cur ++ [m]) with ⟨ex, hex⟩
      exact ⟨m :: ex, by rw [hex]; simp⟩

/-- C9: a Prepare with the current view, an uncompleted sequence and a new
sender, handled in `PrePrepared`, is accepted into the prepare set and
counted toward the quorum even though its digest differs from the
engine's current digest — no digest comparison happens anywhere in
`handlePrepare` — and reaching the threshold flips the engine to
`Prepared` and emits a Commit. -/
theorem prepare_counted_regardless_of_digest (e : EngineState) (m : PBFTMessage)
    (hv : m.viewNumber = e.viewNumber)
    (hc : m.sequenceNumber ∉ e.completedSequences)
    (hst : e.state = ConsensusState.prePrepared)
    (hnew : (getMsgs e.prepareMessages (m.viewNumber, m.sequenceNumber)).all
        (fun x => x.nodeId ≠ m.nodeId) = true)
    (hdig : m.digest ≠ e.currentDigest) :
    ((getMsgs (handlePrepare e m).1.prepareMessages (m.viewNumber, m.sequenceNumber)).any
        (fun x => x.nodeId = m.nodeId) = true) ∧
    ((getMsgs e.prepareMessages (m.viewNumber, m.sequenceNumber)).length + 1 ≤
      (getMsgs (handlePrepare e m).1.prepareMessages (m.viewNumber, m.sequenceNumber)).length) ∧
    (e.consensusThreshold ≤ (getMsgs (handlePrepare e m).1.prepareMessages
        (m.viewNumber, m.sequenceNumber)).length →
      (handlePrepare e m).1.state = ConsensusState.prepared ∧
      ∃ c, (handlePrepare e m).2 = some c ∧ c.type = MessageType.commit) ∧
    ((getMsgs (handlePrepare e m).1.prepareMessages (m.viewNumber, m.sequenceNumber)).length <
        e.consensusThreshold →
      (handlePrepare e m).1.state = ConsensusState.prePrepared ∧ (handlePrepare e m).2 = none) := by
  have hnew' : (getMsgs e.prepareMessages (m.viewNumber, m.sequenceNumber)).any
      (fun x => x.nodeId = m.nodeId) = false := by
    rw [List.all_eq_true] at hnew
    rw [List.any_eq_false]
    intro x hx
    simpa using hnew x hx
  unfold handlePrepare
  rw [if_neg (by simp [hv]), if_neg hc, hst]
  rw [if_neg (by decide), if_neg (by decide)]
  simp only []
  set cur := getMsgs e.prepareMessages (m.viewNumber, m.sequenceNumber) with hcur
  by_cases hdr : m.nodeId = e.nodeId ∧ cur.length = 1
  · rw [if_pos hdr]
    rcases foldl_dedup_extends (getMsgs e.pendingPrepareMessages (m.viewNumber, m.sequenceNumber))
      cur with ⟨ex, hex⟩
    rw [hex]
    by_cases hadd : ((cur ++ ex).any (fun x => x.nodeId = m.nodeId)) = true
    · rw [if_pos hadd]
      have hex_ne : ex ≠ [] := by
        intro h0
        rw [h0, List.append_nil] at hadd
        rw [hadd] at hnew'
        exact absurd hnew' (by simp)
      have hlen : cur.length + 1 ≤ (cur ++ ex).length := by
        rw [List.length_append]
        have : 1 ≤ ex.length := List.length_pos.mpr hex_ne
        omega
      by_cases hth : (cur ++ ex).length ≥ e.consensusThreshold
      · rw [if_pos ⟨hth, trivial⟩]
        refine ⟨?_, ?_, ?_, ?_⟩
        · simp only [getMsgs_jsMapSet_self]; exact hadd
        · simp only [getMsgs_jsMapSet_self]; exact hlen
        · intro _; exact ⟨rfl, ⟨_, rfl, rfl⟩⟩
        · intro hth2
          simp only [getMsgs_jsMapSet_self] at hth2
          exact absurd hth2 (by omega)
      · rw [if_neg (fun hcon => hth hcon.1)]
        refine ⟨?_, ?_, ?_, ?_⟩
        · simp only [getMsgs_jsMapSet_self]; exact hadd
        · simp only [getMsgs_jsMapSet_self]; exact hlen
        · intro hth2
          simp only [getMsgs_jsMapSet_self] at hth2
          exact absurd hth2 (by omega)
        · intro _; exact ⟨rfl, rfl⟩
    · rw [if_neg hadd]
      have hself : ((cur ++ ex ++ [m]).any (fun x => x.nodeId = m.nodeId)) = true := by
        rw [List.any_eq_true]
        exact ⟨m, by simp, by simp⟩
      have hlen : cur.length + 1 ≤ (cur ++ ex ++ [m]).length := by
        simp only [List.length_append, List.length_singleton]
        omega
      by_cases hth : (cur ++ ex ++ [m]).length ≥ e.consensusThreshold
      · rw [if_pos ⟨hth, trivial⟩]
        refine ⟨?_, ?_, ?_, ?_⟩
        · simp only [getMsgs_jsMapSet_self]; exact hself
        · simp only [getMsgs_jsMapSet_self]; exact hlen
        · intro _; exact ⟨rfl, ⟨_, rfl, rfl⟩⟩
        · intro hth2
          simp only [getMsgs_jsMapSet_self] at hth2
          exact absurd hth2 (by omega)
      · rw [if_neg (fun hcon => hth hcon.1)]
        refine ⟨?_, ?_, ?_, ?_⟩
        · simp only [getMsgs_jsMapSet_self]; exact hself
        · simp only [getMsgs_jsMapSet_self]; exact hlen
        · intro hth2
          simp only [getMsgs_jsMapSet_self] at hth2
          exact absurd hth2 (by omega)
        · intro _; exact ⟨rfl, rfl⟩
  · rw [if_neg hdr]
    dsimp only
    have haddneg : ¬ ((cur.any (fun x => x.nodeId = m.nodeId)) = true) := by simp [hnew']
    rw [if_neg haddneg]
    have hself : ((cur ++ [m]).any (fun x => x.nodeId = m.nodeId)) = true := by
      rw [List.any_eq_true]
      exact ⟨m, by simp, by simp⟩
    have hlen : cur.length + 1 ≤ (cur ++ [m]).length := by
      simp only [List.length_append, List.length_singleton]
      omega
    by_cases hth : (cur ++ [m]).length ≥ e.consensusThreshold
    · rw [if_pos ⟨hth, trivial⟩]
      refine ⟨?_, ?_, ?_, ?_⟩
      · simp only [getMsgs_jsMapSet_self]; exact hself
      · simp only [getMsgs_jsMapSet_self]; exact hlen
      · intro _; exact ⟨rfl, ⟨_, rfl, rfl⟩⟩
      · intro hth2
        simp only [getMsgs_jsMapSet_self] at hth2
        exact absurd hth2 (by omega)
    · rw [if_neg (fun hcon => hth hcon.1)]
      refine ⟨?_, ?_, ?_, ?_⟩
      · simp only [getMsgs_jsMapSet_self]; exact hself
      · simp only [getMsgs_jsMapSet_self]; exact hlen
      · intro hth2
        simp only [getMsgs_jsMapSet_self] at hth2
        exact absurd hth2 (by omega)
      · intro _; exact ⟨rfl, rfl⟩

/-- A Prepare for view 0, sequence 1. -/
def mkPrepare (sender dg : String) : PBFTMessage :=
  { type := .prepare, consensusType := .normal, viewNumber := 0, sequenceNumber := 1
    nodeId := sender, taskId := "task-1", digest := dg, signature := "sig" }

/-- A follower engine in `PrePrepared` for sequence 1 with two prepares
collected (threshold 3). -/
def c9Engine : EngineState :=
  { mkEngine "node-f1" false 4 with
    state := .prePrepared, sequenceNumber := 1, currentDigest := "d"
    currentProposal := some (sampleProof "v1" "H.264" 5000 85)
    prepareMessages := [((0, 1), [mkPrepare "node-f1" "d", mkPrepare "leader" "d"])] }

/-- Witness for C9: a third Prepare whose digest `evil` differs from the
engine's digest still completes the quorum and produces the Commit. -/
theorem prepare_counted_regardless_of_digest_witness :
    (handlePrepare c9Engine (mkPrepare "node-f2" "evil")).1.state = ConsensusState.prepared ∧
    (∃ c, (handlePrepare c9Engine (mkPrepare "node-f2" "evil")).2 = some c ∧
      c.type = MessageType.commit) := by
  have h := prepare_counted_regardless_of_digest c9Engine (mkPrepare "node-f2" "evil")
    (by decide) (by decide) (by decide) (by decide) (by decide)
  exact h.2.2.1 (by decide)

/-- A leader of a 7-node committee with a validated task, a pending
supplementary consensus payload and two nodes already in the ready set. -/
def c3Node : NodeState :=
  { mkNode "leader" true 7 with
    taskStatuses := [("task-1",
      { taskId := "task-1", state := .validated, proofCount := 3
        verifierIds := ["v1", "v2", "v3"], createdAt := 0, updatedAt := 0 })]
    taskProofs := [("task-1", [sampleProof "v1" "H.264" 5000 85, sampleProof "v2" "H.264" 5000 85])]
    pendingSupplementaryConsensus := [("task-1", sampleProof "v1" "H.264" 5000 85)]
    supplementaryReadyStatus := [("task-1", ["leader", "node-f1"])] }

/-- The third ack, from `node-f2`. -/
def c3Ack : SupplementaryAckMessage :=
  { taskId := "task-1", supplementaryProofId := "sp-1", nodeId := "node-f2"
    timestamp := 0, signature := "sig" }

/-- C3: the committee was constructed with N = 7, whose quorum threshold is
`2⌊(N−1)/3⌋+1 = 5`, yet the ack handler — which derives its required
count from the hardcoded `totalNodes = 4` — invokes `startFinalConsensus`
as soon as the ready set reaches 3 nodes, moving the task to `Consensus`. -/
theorem ackThreshold_uses_hardcoded_four :
    c3Node.totalNodes = 7 ∧
    thresholdOf c3Node.totalNodes = 5 ∧
    ((jsMapLookup c3Node.supplementaryReadyStatus "task-1").getD []).length = 2 ∧
    (handleSupplementaryAckMessage stubHash c3Node c3Ack).startedFinal = ["task-1"] ∧
    (getStatus (handleSupplementaryAckMessage stubHash c3Node c3Ack) "task-1").map
        (fun st => st.state) = some TaskProcessingState.consensus := by decide

theorem getStatus_setStatus_self (s : NodeState) (taskId : String) (st : TaskStatus) :
    getStatus (setStatus s taskId st) taskId = some st := by
  unfold getStatus setStatus
  exact jsMapLookup_jsMapSet_self _ _ _

/-- C8: on a task awaiting supplementary verification with at least two
originals, a supplementary proof failing quick-validation marks the task
`Failed`, records the failure in `validationInfo.supplementaryResult` and
stores nothing — counters, verifier list and the proof store are
untouched; when the precondition fails (no record, wrong state, or fewer
than two originals) the whole node state is unchanged. -/
theorem handleSupplementaryProof_quickfail (hash : QoSProof → String) (now : Int)
    (s : NodeState) (taskId : String) (proof : QoSProof) :
    (∀ st, getStatus s taskId = some st →
      st.state = TaskProcessingState.awaitingSupplementary →
      2 ≤ (getProofsForTask s taskId).length →
      (quickValidate now proof).isValid = false →
      ∃ st2, getStatus (handleSupplementaryProof hash now s taskId proof) taskId = some st2 ∧
        st2.state = TaskProcessingState.failed ∧
        st2.proofCount = st.proofCount ∧
        st2.verifierIds = st.verifierIds ∧
        (∃ vi, st2.validationInfo = some vi ∧
          vi.supplementaryResult =
            some { isValid := false, details := (quickValidate now proof).details }) ∧
        (handleSupplementaryProof hash now s taskId proof).taskProofs = s.taskProofs) ∧
    ((getStatus s taskId = none ∨
      (∀ st, getStatus s taskId = some st → st.state ≠ TaskProcessingState.awaitingSupplementary) ∨
      (getProofsForTask s taskId).length < 2) →
      handleSupplementaryProof hash now s taskId proof = s) := by
  constructor
  · intro st hlook hstate hlen hfail
    unfold handleSupplementaryProof
    rw [hlook]
    dsimp only
    rw [if_neg (by simp [hstate])]
    rw [if_neg (by omega)]
    rw [if_pos (by simp [hfail])]
    refine ⟨_, getStatus_setStatus_self _ _ _, rfl, rfl, rfl, ⟨_, rfl, rfl⟩, rfl⟩
  · intro hpre
    unfold handleSupplementaryProof
    cases hlook : getStatus s taskId with
    | none => rfl
    | some st =>
      dsimp only
      rcases hpre with h | h | h
      · rw [hlook] at h
        exact absurd h (by simp)
      · rw [if_pos (h st hlook)]
      · by_cases hstate : st.state ≠ TaskProcessingState.awaitingSupplementary
        · rw [if_pos hstate]
        · rw [if_neg hstate, if_pos h]

/-- A follower with a task awaiting supplementary verification over two
conflicting originals. -/
def c8Node : NodeState :=
  { mkNode "node-f1" false 4 with
    taskStatuses := [("task-1",
      { taskId := "task-1", state := .awaitingSupplementary, proofCount := 2
        verifierIds := ["v1", "v2"], createdAt := 0, updatedAt := 0 })]
    taskProofs := [("task-1", [sampleProof "v1" "H.264" 5000 85, sampleProof "v2" "H.265" 5000 85])] }

/-- A supplementary proof with an empty signature (fails quick-validation). -/
def c8BadProof : QoSProof := { sampleProof "v3" "H.264" 5000 85 with signature := "" }

/-- Witness for C8 at the concrete node and failing supplementary proof. -/
theorem handleSupplementaryProof_quickfail_witness :
    ∃ st2, getStatus (handleSupplementaryProof stubHash 2000 c8Node "task-1" c8BadProof) "task-1"
        = some st2 ∧
      st2.state = TaskProcessingState.failed ∧
      st2.verifierIds = ["v1", "v2"] ∧
      (handleSupplementaryProof stubHash 2000 c8Node "task-1" c8BadProof).taskProofs
        = c8Node.taskProofs := by
  rcases (handleSupplementaryProof_quickfail stubHash 2000 c8Node "task-1" c8BadProof).1
    { taskId := "task-1", state := .awaitingSupplementary, proofCount := 2
      verifierIds := ["v1", "v2"], createdAt := 0, updatedAt := 0 }
    (by decide) (by decide) (by decide) (by decide) with ⟨st2, h1, h2, h3, h4, h5, h6⟩
  exact ⟨st2, h1, h2, h4, h6⟩

theorem pcq_preserves_pending (hash : QoSProof → String) :
    ∀ fuel s, (processConsensusQueue hash fuel s).pendingPrePrepareMessages
      = s.pendingPrePrepareMessages := by
  intro fuel
  induction fuel with
  | zero => intro s; rfl
  | succ n ih =>
    intro s
    unfold processConsensusQueue
    split
    · rfl
    · dsimp only
      split
      · rfl
      · split
        · exact (ih _).trans rfl
        · split
          · exact (ih _).trans rfl
          · split
            · exact (ih _).trans rfl
            · split
              · exact (ih _).trans rfl
              · split
                · split
                  · split
                    · rfl
                    · rfl
                  · exact (ih _).trans rfl
                · rfl

theorem hccr_preserves_pending (now : Int) (s : NodeState) (taskId : String) :
    (handleConflictConsensusReached now s taskId).pendingPrePrepareMessages
      = s.pendingPrePrepareMessages := by
  unfold handleConflictConsensusReached requestSupplementaryValidation
  split
  · rfl
  · dsimp only
    split
    · rfl
    · split
      · rfl
      · rfl

theorem ocr_preserves_pending (hash : QoSProof → String) (now : Int) (s : NodeState)
    (proof : QoSProof) (ct : ConsensusType) :
    (onConsensusReached hash now s proof ct).pendingPrePrepareMessages
      = s.pendingPrePrepareMessages := by
  unfold onConsensusReached
  rw [pcq_preserves_pending]
  cases ct with
  | conflict =>
    dsimp only
    split
    · exact (hccr_preserves_pending now s proof.taskId).trans rfl
    · exact (hccr_preserves_pending now s proof.taskId).trans rfl
  | normal =>
    dsimp only
    split
    · split
      · rfl
      · rfl
    · split
      · rfl
      · rfl

theorem nhc_preserves_pending (hash : QoSProof → String) (now : Int) (s : NodeState)
    (message : PBFTMessage) :
    (nodeHandleCommit hash now s message).pendingPrePrepareMessages
      = s.pendingPrePrepareMessages := by
  unfold nodeHandleCommit
  dsimp only
  split
  · split
    · exact (ocr_preserves_pending hash now _ _ _).trans rfl
    · rfl
  · rfl

theorem ppm_pending_set (hash : QoSProof → String) (now : Int) (s : NodeState)
    (message : PBFTMessage) (d : QoSProof) (hd : message.data = some d)
    (hlen : (getProofsForTask s message.taskId).length < 2) :
    (processPrePrepareMessage hash now s message).1.pendingPrePrepareMessages
      = jsMapSet s.pendingPrePrepareMessages message.taskId message := by
  unfold processPrePrepareMessage
  rw [hd]
  dsimp only
  rw [if_pos hlen]

theorem ppm_pending_lookup_ge2 (hash : QoSProof → String) (now : Int) (s : NodeState)
    (message : PBFTMessage) (t : String) (hge : 2 ≤ (getProofsForTask s t).length) :
    jsMapLookup (processPrePrepareMessage hash now s message).1.pendingPrePrepareMessages t
      = jsMapLookup s.pendingPrePrepareMessages t := by
  unfold processPrePrepareMessage
  split
  · rfl
  · dsimp only
    split
    next hlen =>
      have hne : t ≠ message.taskId := by
        intro he
        rw [he] at hge
        omega
      exact jsMapLookup_jsMapSet_other _ _ _ _ hne
    next hlen =>
      split
      · split
        · split
          · rfl
          · rfl
        · split
          · rfl
          · rfl
      · split
        · rfl
        · rfl

theorem checkPending_no_entry (hash : QoSProof → String) (now : Int) (s : NodeState)
    (taskId : String)
    (h : jsMapLookup s.pendingPrePrepareMessages taskId = none) :
    checkPendingPrePrepareMessages hash now s taskId = s := by
  unfold checkPendingPrePrepareMessages
  rw [h]

theorem checkPending_removes (hash : QoSProof → String) (now : Int) (s : NodeState)
    (taskId : String) (m : PBFTMessage)
    (hlook : jsMapLookup s.pendingPrePrepareMessages taskId = some m)
    (hge : 2 ≤ (getProofsForTask s taskId).length) :
    jsMapLookup
      (checkPendingPrePrepareMessages hash now s taskId).pendingPrePrepareMessages taskId
      = none := by
  unfold checkPendingPrePrepareMessages
  split
  next heq =>
    rw [hlook] at heq
    exact absurd heq (by simp)
  next pm heq =>
    rw [hlook] at heq
    injection heq with hpm
    subst hpm
    rw [if_pos (show (getProofsForTask s taskId).length ≥ 2 from hge)]
    have hge2 : 2 ≤ (getProofsForTask
        { s with pendingPrePrepareMessages := jsMapDelete s.pendingPrePrepareMessages taskId }
        taskId).length := hge
    have hkey := (ppm_pending_lookup_ge2 hash now
      { s with pendingPrePrepareMessages := jsMapDelete s.pendingPrePrepareMessages taskId }
      m taskId hge2).trans (jsMapLookup_jsMapDelete_self s.pendingPrePrepareMessages taskId)
    lift_lets
    intro s1 pr
    split
    next response hresp =>
      dsimp only
      split
      next commitMsg hc =>
        rw [nhc_preserves_pending]
        exact hkey
      next hc => exact hkey
    next hresp => exact hkey

/-- C10: the pending-PrePrepare buffer keeps at most one message per
task.  Buffering while fewer than two local proofs exist overwrites any
earlier entry for that task and leaves entries of other tasks alone;
once an entry exists and two local proofs are present,
`checkPendingPrePrepareMessages` removes it before reprocessing (and
reprocessing never re-buffers it), so a second check is a no-op; without
a buffered entry, or with fewer than two proofs, the check changes
nothing. -/
theorem pendingPrePrepare_buffer_lifecycle (hash : QoSProof → String) (now : Int)
    (s : NodeState) (message : PBFTMessage) (d : QoSProof) (taskId : String)
    (m : PBFTMessage) :
    (message.data = some d → (getProofsForTask s message.taskId).length < 2 →
      ∀ t, jsMapLookup
          (processPrePrepareMessage hash now s message).1.pendingPrePrepareMessages t
        = if t = message.taskId then some message
          else jsMapLookup s.pendingPrePrepareMessages t) ∧
    (jsMapLookup s.pendingPrePrepareMessages taskId = some m →
      2 ≤ (getProofsForTask s taskId).length →
      jsMapLookup
          (checkPendingPrePrepareMessages hash now s taskId).pendingPrePrepareMessages taskId
        = none ∧
      checkPendingPrePrepareMessages hash now
          (checkPendingPrePrepareMessages hash now s taskId) taskId
        = checkPendingPrePrepareMessages hash now s taskId) ∧
    (jsMapLookup s.pendingPrePrepareMessages taskId = none →
      checkPendingPrePrepareMessages hash now s taskId = s) ∧
    ((getProofsForTask s taskId).length < 2 →
      checkPendingPrePrepareMessages hash now s taskId = s) := by
  refine ⟨?_, ?_, ?_, ?_⟩
  · intro hd hlen t
    rw [ppm_pending_set hash now s message d hd hlen]
    by_cases ht : t = message.taskId
    · rw [if_pos ht, ht]
      exact jsMapLookup_jsMapSet_self _ _ _
    · rw [if_neg ht]
      exact jsMapLookup_jsMapSet_other _ _ _ _ ht
  · intro hlk hge
    have h1 := checkPending_removes hash now s taskId m hlk hge
    exact ⟨h1, checkPending_no_entry hash now _ taskId h1⟩
  · exact checkPending_no_entry hash now s taskId
  · intro hlt
    unfold checkPendingPrePrepareMessages
    split
    · rfl
    · rw [if_neg (by omega)]

/-- A copy of the sample proof retargeted at another task id. -/
def c10Proof (tid vid : String) : QoSProof :=
  { sampleProof vid "H.264" 5000 85 with taskId := tid }

/-- A buffered PrePrepare for `task-B`. -/
def c10Buffered : PBFTMessage :=
  { type := .prePrepare, consensusType := .normal, viewNumber := 0, sequenceNumber := 1
    nodeId := "leader", taskId := "task-B", data := some (c10Proof "task-B" "v1")
    digest := "d", signature := "sig" }

/-- An incoming PrePrepare for `task-A`, which has no local proofs. -/
def c10Incoming : PBFTMessage :=
  { type := .prePrepare, consensusType := .normal, viewNumber := 0, sequenceNumber := 2
    nodeId := "leader", taskId := "task-A", data := some (c10Proof "task-A" "v1")
    digest := "d", signature := "sig" }

/-- A follower with a buffered PrePrepare for `task-B` and two stored
proofs for it, and nothing for `task-A`. -/
def c10Node : NodeState :=
  { mkNode "node-f1" false 4 with
    pendingPrePrepareMessages := [("task-B", c10Buffered)]
    taskProofs := [("task-B", [c10Proof "task-B" "v1", c10Proof "task-B" "v2"])] }

/-- Witness for C10 at concrete states: the incoming PrePrepare for
`task-A` is buffered under its own key and leaves the `task-B` entry
alone; the buffered `task-B` message is removed by the check and a
second check is a no-op; checking a task with no entry, or one with too
few proofs, changes nothing. -/
theorem pendingPrePrepare_buffer_lifecycle_witness :
    jsMapLookup (processPrePrepareMessage stubHash 1000 c10Node
        c10Incoming).1.pendingPrePrepareMessages "task-A" = some c10Incoming ∧
    jsMapLookup (processPrePrepareMessage stubHash 1000 c10Node
        c10Incoming).1.pendingPrePrepareMessages "task-B" = some c10Buffered ∧
    jsMapLookup (checkPendingPrePrepareMessages stubHash 1000 c10Node
        "task-B").pendingPrePrepareMessages "task-B" = none ∧
    checkPendingPrePrepareMessages stubHash 1000
        (checkPendingPrePrepareMessages stubHash 1000 c10Node "task-B") "task-B"
      = checkPendingPrePrepareMessages stubHash 1000 c10Node "task-B" ∧
    checkPendingPrePrepareMessages stubHash 1000 c10Node "task-C" = c10Node ∧
    checkPendingPrePrepareMessages stubHash 1000 c10Node "task-A" = c10Node := by
  have hmain := pendingPrePrepare_buffer_lifecycle stubHash 1000 c10Node c10Incoming
    (c10Proof "task-A" "v1") "task-B" c10Buffered
  have h1 := hmain.1 rfl (by decide) "task-A"
  have h1b := hmain.1 rfl (by decide) "task-B"
  rw [if_pos (show "task-A" = c10Incoming.taskId from rfl)] at h1
  rw [if_neg (show ¬ ("task-B" = c10Incoming.taskId) by decide)] at h1b
  have h2 := hmain.2.1 rfl (by decide)
  have hC := (pendingPrePrepare_buffer_lifecycle stubHash 1000 c10Node c10Incoming
    (c10Proof "task-A" "v1") "task-C" c10Buffered).2.2.1 rfl
  have hA := (pendingPrePrepare_buffer_lifecycle stubHash 1000 c10Node c10Incoming
    (c10Proof "task-A" "v1") "task-A" c10Buffered).2.2.2 (by decide)
  exact ⟨h1, h1b.trans rfl, h2.1, h2.2, hC, hA⟩

/-- Per-task-record invariant claimed by the spec: the proof counter
matches the verifier list and no verifier is counted twice. -/
def statusOk (st : TaskStatus) : Bool :=
  (st.proofCount == st.verifierIds.length) && decide st.verifierIds.Nodup

/-- All task records are internally consistent. -/
def statusesOk (s : NodeState) : Bool :=
  s.taskStatuses.all (fun p => statusOk p.2)

/-- Verifier ids of a stored proof list. -/
def proofVerifiers (ps : List QoSProof) : List String :=
  ps.map (fun q => q.verifierId)

/-- Each task's stored proofs come from pairwise distinct verifiers. -/
def proofsNodupOk (s : NodeState) : Bool :=
  s.taskProofs.all (fun p => decide (proofVerifiers p.2).Nodup)

/-- Stored proofs are covered by their task record's verifier list
(a proofs entry without a task record must be empty). -/
def coveredOk (s : NodeState) : Bool :=
  s.taskProofs.all (fun p =>
    match jsMapLookup s.taskStatuses p.1 with
    | some st => (proofVerifiers p.2).all (fun v => decide (v ∈ st.verifierIds))
    | none => p.2.isEmpty)

/-- The node-level verifier-bookkeeping invariant. -/
def nodeInv (s : NodeState) : Bool :=
  statusesOk s && proofsNodupOk s && coveredOk s

theorem jsMapLookup_mem [DecidableEq κ] {m : List (κ × β)} {k : κ} {v : β}
    (h : jsMapLookup m k = some v) : (k, v) ∈ m := by
  unfold jsMapLookup at h
  rcases hf : m.find? (fun p => p.1 = k) with _ | q
  · rw [hf] at h
    exact absurd h (by simp)
  · rw [hf] at h
    have hfind := List.find?_some hf
    have hk : q.1 = k := by simpa using hfind
    have hv : q.2 = v := by simpa using h
    have hpe : q = (k, v) := by
      cases q
      simp only [Prod.mk.injEq]
      exact ⟨hk, hv⟩
    rw [← hpe]
    exact List.mem_of_find?_eq_some hf

theorem statusOk_lookup {s : NodeState} {tid : String} {st : TaskStatus}
    (h : statusesOk s = true) (hl : getStatus s tid = some st) : statusOk st = true := by
  unfold statusesOk at h
  exact List.all_eq_true.mp h _ (jsMapLookup_mem hl)

theorem nodeInv_parts {s : NodeState} (h : nodeInv s = true) :
    statusesOk s = true ∧ proofsNodupOk s = true ∧ coveredOk s = true := by
  unfold nodeInv at h
  rw [Bool.and_eq_true, Bool.and_eq_true] at h
  exact ⟨h.1.1, h.1.2, h.2⟩

theorem nodeInv_setStatus (s : NodeState) (tid : String) (st : TaskStatus)
    (hinv : nodeInv s = true)
    (hok : statusOk st = true)
    (hmono : ∀ st0, getStatus s tid = some st0 →
      ∀ v, v ∈ st0.verifierIds → v ∈ st.verifierIds) :
    nodeInv (setStatus s tid st) = true := by
  obtain ⟨hs, hn, hc⟩ := nodeInv_parts hinv
  unfold nodeInv
  rw [Bool.and_eq_true, Bool.and_eq_true]
  refine ⟨⟨?_, ?_⟩, ?_⟩
  · unfold statusesOk setStatus at *
    rw [List.all_eq_true] at hs ⊢
    intro p hp
    rcases mem_jsMapSet hp with hin | he
    · exact hs p hin
    · rw [he]
      exact hok
  · exact hn
  · unfold coveredOk setStatus at *
    rw [List.all_eq_true] at hc ⊢
    intro p hp
    have hold := hc p hp
    by_cases hk : p.1 = tid
    · rw [hk, jsMapLookup_jsMapSet_self]
      cases hl0 : jsMapLookup s.taskStatuses p.1 with
      | none =>
        rw [hl0] at hold
        simp only [List.isEmpty_iff] at hold
        simp [proofVerifiers, hold]
      | some st0 =>
        rw [hl0] at hold
        simp only [List.all_eq_true, decide_eq_true_eq] at hold ⊢
        intro v hv
        exact hmono st0 (by rw [← hk]; exact hl0) v (hold v hv)
    · rw [jsMapLookup_jsMapSet_other _ _ _ _ hk]
      exact hold

theorem nodeInv_setStatus_same (s : NodeState) (tid : String) (st0 st : TaskStatus)
    (hinv : nodeInv s = true)
    (hlk : getStatus s tid = some st0)
    (hv : st.verifierIds = st0.verifierIds)
    (hc : st.proofCount = st0.proofCount) :
    nodeInv (setStatus s tid st) = true := by
  apply nodeInv_setStatus s tid st hinv
  · have h0 := statusOk_lookup (nodeInv_parts hinv).1 hlk
    unfold statusOk at h0 ⊢
    rw [hv, hc]
    exact h0
  · intro st1 h1 v hv1
    rw [hlk] at h1
    injection h1 with h1e
    rw [hv, h1e]
    exact hv1

theorem nodeInv_store_set (s : NodeState) (tid : String) (proof : QoSProof)
    (st : TaskStatus)
    (hinv : nodeInv s = true)
    (hok : statusOk st = true)
    (hvin : proof.verifierId ∈ st.verifierIds)
    (hmono : ∀ st0, getStatus s tid = some st0 →
      ∀ v, v ∈ st0.verifierIds → v ∈ st.verifierIds)
    (hnotin : proof.verifierId ∉ proofVerifiers (getProofsForTask s tid)) :
    nodeInv (setStatus (storeProof s tid proof) tid st) = true := by
  obtain ⟨hs, hn, hc⟩ := nodeInv_parts hinv
  have hps0 : ∀ ps, jsMapLookup s.taskProofs tid = some ps →
      (decide (proofVerifiers ps).Nodup = true) ∧
      (∀ v, v ∈ proofVerifiers ps → v ∈ st.verifierIds) := by
    intro ps hlp
    have hmem := jsMapLookup_mem hlp
    constructor
    · unfold proofsNodupOk at hn
      exact List.all_eq_true.mp hn _ hmem
    · unfold coveredOk at hc
      have hcond := List.all_eq_true.mp hc _ hmem
      intro v hv
      cases hl0 : jsMapLookup s.taskStatuses tid with
      | none =>
        rw [hl0] at hcond
        simp only [List.isEmpty_iff] at hcond
        rw [hcond] at hv
        exact absurd hv (by simp [proofVerifiers])
      | some st0 =>
        rw [hl0] at hcond
        simp only [List.all_eq_true, decide_eq_true_eq] at hcond
        exact hmono st0 hl0 v (hcond v hv)
  unfold nodeInv
  rw [Bool.and_eq_true, Bool.and_eq_true]
  refine ⟨⟨?_, ?_⟩, ?_⟩
  · unfold statusesOk setStatus storeProof at *
    rw [List.all_eq_true] at hs ⊢
    intro p hp
    rcases mem_jsMapSet hp with hin | he
    · exact hs p hin
    · rw [he]
      exact hok
  · unfold proofsNodupOk setStatus storeProof at *
    rw [List.all_eq_true] at hn ⊢
    intro p hp
    rcases mem_jsMapSet hp with hin | he
    · exact hn p hin
    · rw [he]
      simp only [decide_eq_true_eq]
      have happ : proofVerifiers (((jsMapLookup s.taskProofs tid).getD []) ++ [proof])
          = proofVerifiers ((jsMapLookup s.taskProofs tid).getD []) ++ [proof.verifierId] := by
        simp [proofVerifiers]
      rw [happ]
      rw [List.nodup_append]
      refine ⟨?_, List.nodup_singleton _, ?_⟩
      · cases hlp : jsMapLookup s.taskProofs tid with
        | none => simp [proofVerifiers]
        | some ps =>
          have := (hps0 ps hlp).1
          simpa using this
      · intro v hv hv1
        simp only [List.mem_singleton] at hv1
        rw [hv1] at hv
        apply hnotin
        unfold getProofsForTask
        exact hv
  · unfold coveredOk setStatus storeProof at *
    rw [List.all_eq_true] at hc ⊢
    intro p hp
    rcases mem_jsMapSet hp with hin | he
    · have hold := hc p hin
      by_cases hk : p.1 = tid
      · rw [hk, jsMapLookup_jsMapSet_self]
        cases hl0 : jsMapLookup s.taskStatuses p.1 with
        | none =>
          rw [hl0] at hold
          simp only [List.isEmpty_iff] at hold
          simp [proofVerifiers, hold]
        | some st0 =>
          rw [hl0] at hold
          simp only [List.all_eq_true, decide_eq_true_eq] at hold ⊢
          intro v hv
          exact hmono st0 (by rw [← hk]; exact hl0) v (hold v hv)
      · rw [jsMapLookup_jsMapSet_other _ _ _ _ hk]
        exact hold
    · rw [he]
      rw [jsMapLookup_jsMapSet_self]
      simp only [List.all_eq_true, decide_eq_true_eq]
      intro v hv
      have happ : proofVerifiers (((jsMapLookup s.taskProofs tid).getD []) ++ [proof])
          = proofVerifiers ((jsMapLookup s.taskProofs tid).getD []) ++ [proof.verifierId] := by
        simp [proofVerifiers]
      rw [happ] at hv
      rcases List.mem_append.mp hv with hv0 | hv1
      · cases hlp : jsMapLookup s.taskProofs tid with
        | none =>
          rw [hlp] at hv0
          exact absurd hv0 (by simp [proofVerifiers])
        | some ps =>
          rw [hlp] at hv0
          exact (hps0 ps hlp).2 v hv0
      · simp only [List.mem_singleton] at hv1
        rw [hv1]
        exact hvin

theorem checkPending_lt2 (hash : QoSProof → String) (now : Int) (s : NodeState)
    (taskId : String) (hlt : (getProofsForTask s taskId).length < 2) :
    checkPendingPrePrepareMessages hash now s taskId = s := by
  unfold checkPendingPrePrepareMessages
  split
  · rfl
  · rw [if_neg (by omega)]

theorem nodeInv_fields (t s : NodeState)
    (hst : t.taskStatuses = s.taskStatuses) (hpf : t.taskProofs = s.taskProofs) :
    nodeInv t = nodeInv s := by
  unfold nodeInv statusesOk proofsNodupOk coveredOk
  rw [hst, hpf]

theorem inv_pcq (hash : QoSProof → String) :
    ∀ fuel s, nodeInv s = true → nodeInv (processConsensusQueue hash fuel s) = true := by
  intro fuel
  induction fuel with
  | zero => intro s h; exact h
  | succ n ih =>
    intro s hinv
    unfold processConsensusQueue
    split
    · exact hinv
    · dsimp only
      split
      · exact hinv
      next taskId hhead =>
        split
        · exact ih _ hinv
        next status hst =>
          split
          · exact ih _ hinv
          · split
            · exact ih _ hinv
            · split
              · exact ih _ hinv
              · split
                · split
                  · split
                    · exact hinv
                    · exact hinv
                  · refine ih _ ?_
                    have hlk : getStatus s taskId = some status := hst
                    exact (nodeInv_fields _ _ rfl rfl).trans
                      (nodeInv_setStatus_same s taskId status
                        { status with state := .validating } hinv hlk rfl rfl)
                · exact hinv

theorem inv_hccr (now : Int) (s : NodeState) (taskId : String)
    (hinv : nodeInv s = true) :
    nodeInv (handleConflictConsensusReached now s taskId) = true := by
  unfold handleConflictConsensusReached
  split
  · exact hinv
  next status hst =>
    have h1 : nodeInv (setStatus s taskId
        { status with state := .awaitingSupplementary, updatedAt := now }) = true :=
      nodeInv_setStatus_same s taskId status _ hinv hst rfl rfl
    unfold requestSupplementaryValidation
    lift_lets
    intro s2
    split
    next h2 => exact h1
    next st2 h2 =>
      split
      · exact h1
      · exact (nodeInv_fields _ _ rfl rfl).trans
          (nodeInv_setStatus_same s2 taskId st2 _ h1 h2 rfl rfl)

theorem inv_ocr_tail (hash : QoSProof → String) (s1 : NodeState) (taskId : String)
    (h1 : nodeInv s1 = true) :
    nodeInv (processConsensusQueue hash
      (({ (if s1.consensusQueue.head? = some taskId then
            { s1 with consensusQueue := s1.consensusQueue.tail } else s1) with
          processingConsensus := false, currentConsensusTaskId := none }).consensusQueue.length + 1)
      { (if s1.consensusQueue.head? = some taskId then
          { s1 with consensusQueue := s1.consensusQueue.tail } else s1) with
        processingConsensus := false, currentConsensusTaskId := none }) = true := by
  apply inv_pcq
  split
  · exact h1
  · exact h1

theorem inv_ocr (hash : QoSProof → String) (now : Int) (s : NodeState)
    (proof : QoSProof) (ct : ConsensusType) (hinv : nodeInv s = true) :
    nodeInv (onConsensusReached hash now s proof ct) = true := by
  cases ct with
  | conflict =>
    exact inv_ocr_tail hash (handleConflictConsensusReached now s proof.taskId)
      proof.taskId (inv_hccr now s proof.taskId hinv)
  | normal =>
    have hs1 : nodeInv (match getStatus s proof.taskId with
        | none => s
        | some status =>
          setStatus s proof.taskId
            { status with
              state := TaskProcessingState.finalized
              updatedAt := now
              result := some { (status.result.getD {}) with consensusTimestamp := some now } })
        = true := by
      split
      · exact hinv
      next status hst => exact nodeInv_setStatus_same s proof.taskId status _ hinv hst rfl rfl
    exact inv_ocr_tail hash _ proof.taskId hs1

theorem inv_nhc (hash : QoSProof → String) (now : Int) (s : NodeState)
    (message : PBFTMessage) (hinv : nodeInv s = true) :
    nodeInv (nodeHandleCommit hash now s message) = true := by
  unfold nodeHandleCommit
  dsimp only
  split
  · split
    next pt hevt =>
      exact (nodeInv_fields _ _ rfl rfl).trans
        (inv_ocr hash now _ pt.1 pt.2 ((nodeInv_fields _ _ rfl rfl).trans hinv))
    next hevt => exact hinv
  · exact hinv

theorem inv_ppm (hash : QoSProof → String) (now : Int) (s : NodeState)
    (message : PBFTMessage) (hinv : nodeInv s = true) :
    nodeInv (processPrePrepareMessage hash now s message).1 = true := by
  unfold processPrePrepareMessage
  split
  · exact hinv
  · dsimp only
    split
    next hlen => exact hinv
    next hlen =>
      split
      next st hst =>
        have hlk : getStatus s message.taskId = some st := hst
        split
        · split
          · exact (nodeInv_fields _ _ rfl rfl).trans
              (nodeInv_setStatus_same s message.taskId st
                { st with state := .consensus } hinv hlk rfl rfl)
          · exact hinv
        · split
          · exact hinv
          · exact (nodeInv_fields _ _ rfl rfl).trans
              (nodeInv_setStatus_same s message.taskId st _ hinv hlk
                (by split <;> rfl) (by split <;> rfl))
      next hst =>
        exfalso
        obtain ⟨hs, hn, hc⟩ := nodeInv_parts hinv
        have hstat : jsMapLookup s.taskStatuses message.taskId = none := hst
        cases hlp : jsMapLookup s.taskProofs message.taskId with
        | none =>
          apply hlen
          unfold getProofsForTask
          rw [hlp]
          simp
        | some ps =>
          unfold coveredOk at hc
          have hcond := List.all_eq_true.mp hc (message.taskId, ps) (jsMapLookup_mem hlp)
          rw [hstat] at hcond
          simp only [List.isEmpty_iff] at hcond
          apply hlen
          unfold getProofsForTask
          rw [hlp, hcond]
          simp

theorem inv_enqueue (hash : QoSProof → String) (s : NodeState) (taskId : String)
    (proof : QoSProof) (ct : ConsensusType) (hinv : nodeInv s = true) :
    nodeInv (enqueueConsensusTask hash s taskId proof ct) = true := by
  unfold enqueueConsensusTask
  lift_lets
  intro s1
  split
  · exact inv_pcq hash _ s1 ((nodeInv_fields _ _ rfl rfl).trans hinv)
  · exact hinv

theorem inv_checkPending (hash : QoSProof → String) (now : Int) (s : NodeState)
    (taskId : String) (hinv : nodeInv s = true) :
    nodeInv (checkPendingPrePrepareMessages hash now s taskId) = true := by
  unfold checkPendingPrePrepareMessages
  split
  · exact hinv
  next pm heq =>
    split
    · lift_lets
      intro s1 pr
      have hpr : nodeInv pr.1 = true :=
        inv_ppm hash now s1 pm ((nodeInv_fields _ _ rfl rfl).trans hinv)
      split
      next response hresp =>
        dsimp only
        split
        next commitMsg hc =>
          exact inv_nhc hash now _ commitMsg ((nodeInv_fields _ _ rfl rfl).trans hpr)
        next hc => exact (nodeInv_fields _ _ rfl rfl).trans hpr
      next hresp => exact hpr
    · exact hinv

theorem nodeInv_setStatus_same2 (s : NodeState) (tid : String) (st1 stA stB : TaskStatus)
    (h : nodeInv (setStatus s tid st1) = true)
    (hva : stA.verifierIds = st1.verifierIds) (hca : stA.proofCount = st1.proofCount)
    (hvb : stB.verifierIds = stA.verifierIds) (hcb : stB.proofCount = stA.proofCount) :
    nodeInv (setStatus (setStatus (setStatus s tid st1) tid stA) tid stB) = true := by
  refine nodeInv_setStatus_same _ tid stA _ ?_ (getStatus_setStatus_self _ _ _) hvb hcb
  exact nodeInv_setStatus_same _ tid st1 _ h (getStatus_setStatus_self _ _ _) hva hca

set_option maxHeartbeats 1600000 in
theorem inv_hqp (hash : QoSProof → String) (now : Int) (s : NodeState)
    (proof : QoSProof) (hinv : nodeInv s = true) :
    nodeInv (handleQoSProof hash now s proof) = true := by
  unfold handleQoSProof
  dsimp only
  split
  · exact hinv
  · split
    next hst =>
      obtain ⟨hs, hn, hc⟩ := nodeInv_parts hinv
      have hstat : jsMapLookup s.taskStatuses proof.taskId = none := hst
      have hps0 : (jsMapLookup s.taskProofs proof.taskId).getD [] = [] := by
        cases hlp : jsMapLookup s.taskProofs proof.taskId with
        | none => rfl
        | some ps =>
          unfold coveredOk at hc
          have hcond := List.all_eq_true.mp hc (proof.taskId, ps) (jsMapLookup_mem hlp)
          rw [hstat] at hcond
          simp only [List.isEmpty_iff] at hcond
          simpa using hcond
      have hlen1 : (getProofsForTask (storeProof s proof.taskId proof) proof.taskId).length < 2 := by
        unfold getProofsForTask storeProof
        dsimp only
        rw [jsMapLookup_jsMapSet_self]
        simp [hps0]
      have hcp : checkPendingPrePrepareMessages hash now (storeProof s proof.taskId proof)
          proof.taskId = storeProof s proof.taskId proof :=
        checkPending_lt2 hash now _ _ hlen1
      rw [hcp, ite_self]
      refine nodeInv_store_set s proof.taskId proof _ hinv ?_ ?_ ?_ ?_
      · split <;> simp [statusOk]
      · split <;> simp
      · intro st0 h0 v hv
        rw [hst] at h0
        exact absurd h0 (by simp)
      · unfold getProofsForTask
        rw [hps0]
        simp [proofVerifiers]
    next st hst =>
      split
      · exact hinv
      next hguard =>
        obtain ⟨hs, hn, hc⟩ := nodeInv_parts hinv
        have hnotin : proof.verifierId ∉ proofVerifiers (getProofsForTask s proof.taskId) := by
          cases hlp : jsMapLookup s.taskProofs proof.taskId with
          | none =>
            unfold getProofsForTask
            rw [hlp]
            simp [proofVerifiers]
          | some ps =>
            unfold coveredOk at hc
            have hcond := List.all_eq_true.mp hc (proof.taskId, ps) (jsMapLookup_mem hlp)
            have hstat : jsMapLookup s.taskStatuses proof.taskId = some st := hst
            rw [hstat] at hcond
            simp only [List.all_eq_true, decide_eq_true_eq] at hcond
            unfold getProofsForTask
            rw [hlp]
            intro hvmem
            exact hguard (hcond _ hvmem)
        have hok1 : statusOk { st with proofCount := st.proofCount + 1
                                       verifierIds := st.verifierIds ++ [proof.verifierId]
                                       updatedAt := now } = true := by
          have h0 := statusOk_lookup hs hst
          unfold statusOk at h0 ⊢
          rw [Bool.and_eq_true] at h0 ⊢
          constructor
          · have h1 := h0.1
            simp only [beq_iff_eq] at h1 ⊢
            simp [h1]
          · have h2 := h0.2
            simp only [decide_eq_true_eq] at h2 ⊢
            simp [List.nodup_append, h2, hguard]
        have hmono1 : ∀ st0, getStatus s proof.taskId = some st0 →
            ∀ v, v ∈ st0.verifierIds → v ∈ st.verifierIds ++ [proof.verifierId] := by
          intro st0 h0 v hv
          rw [hst] at h0
          injection h0 with h0e
          rw [← h0e] at hv
          exact List.mem_append_left _ hv
        have hbase := nodeInv_store_set s proof.taskId proof
          { st with proofCount := st.proofCount + 1
                    verifierIds := st.verifierIds ++ [proof.verifierId]
                    updatedAt := now } hinv hok1 (by simp) hmono1 hnotin
        split
        · repeat' split
          all_goals
            first
            | (refine nodeInv_setStatus_same _ proof.taskId _ _ hbase
                (getStatus_setStatus_self _ _ _) ?_ ?_ <;> (first | rfl | (split <;> rfl)))
            | (refine nodeInv_setStatus_same2 _ proof.taskId _ _ _ hbase
                ?_ ?_ ?_ ?_ <;> (first | rfl | (split <;> rfl)))
            | (refine inv_enqueue hash _ proof.taskId _ _ ?_
               refine nodeInv_setStatus_same2 _ proof.taskId _ _ _ hbase
                 ?_ ?_ ?_ ?_ <;> (first | rfl | (split <;> rfl)))
        · refine inv_checkPending hash now _ proof.taskId ?_
          refine nodeInv_setStatus_same _ proof.taskId _ _ hbase
            (getStatus_setStatus_self _ _ _) ?_ ?_ <;> (first | rfl | (split <;> rfl))

theorem nodeInv_setStatus_same3 (s : NodeState) (tid : String) (st1 stA stB stC : TaskStatus)
    (h : nodeInv (setStatus s tid st1) = true)
    (hva : stA.verifierIds = st1.verifierIds) (hca : stA.proofCount = st1.proofCount)
    (hvb : stB.verifierIds = stA.verifierIds) (hcb : stB.proofCount = stA.proofCount)
    (hvc : stC.verifierIds = stB.verifierIds) (hcc : stC.proofCount = stB.proofCount) :
    nodeInv (setStatus (setStatus (setStatus (setStatus s tid st1) tid stA) tid stB) tid stC)
      = true := by
  refine nodeInv_setStatus_same _ tid stB _ ?_ (getStatus_setStatus_self _ _ _) hvc hcc
  exact nodeInv_setStatus_same2 s tid st1 stA stB h hva hca hvb hcb

set_option maxHeartbeats 1600000 in
theorem inv_hsp (hash : QoSProof → String) (now : Int) (s : NodeState)
    (taskId : String) (proof : QoSProof) (hinv : nodeInv s = true)
    (hfresh : ∀ st, getStatus s taskId = some st → proof.verifierId ∉ st.verifierIds) :
    nodeInv (handleSupplementaryProof hash now s taskId proof) = true := by
  unfold handleSupplementaryProof
  split
  · exact hinv
  next status hst =>
    split
    · exact hinv
    · split
      · exact hinv
      · lift_lets
        intro x vi sr vi2 P s1 st1 s2 ct ir op rr vsrc viR st2 s3 st3 s4 cd s5L rm s6 ready s5F ack
        split
        · refine nodeInv_setStatus_same _ taskId status _ hinv hst ?_ ?_ <;> rfl
        · have hg : proof.verifierId ∉ status.verifierIds := hfresh status hst
          obtain ⟨hs, hn, hc⟩ := nodeInv_parts hinv
          have hstOk := statusOk_lookup hs hst
          have hnotin0 : proof.verifierId ∉ proofVerifiers (getProofsForTask s taskId) := by
            cases hlp : jsMapLookup s.taskProofs taskId with
            | none =>
              unfold getProofsForTask
              rw [hlp]
              simp [proofVerifiers]
            | some ps =>
              unfold coveredOk at hc
              have hcond := List.all_eq_true.mp hc (taskId, ps) (jsMapLookup_mem hlp)
              have hstat : jsMapLookup s.taskStatuses taskId = some status := hst
              rw [hstat] at hcond
              simp only [List.all_eq_true, decide_eq_true_eq] at hcond
              unfold getProofsForTask
              rw [hlp]
              intro hvmem
              exact hg (hcond _ hvmem)
          have hPv : P.verifierId = proof.verifierId := by
            show (if proof.id = none then
                { proof with id := some ("supplementary-" ++ taskId ++ "-" ++ toString now) }
              else proof).verifierId = proof.verifierId
            split <;> rfl
          have hv1 : st1.verifierIds = status.verifierIds ++ [P.verifierId] := rfl
          have hc1 : st1.proofCount = status.proofCount + 1 := rfl
          have hok1 : statusOk st1 = true := by
            unfold statusOk at hstOk ⊢
            rw [Bool.and_eq_true] at hstOk ⊢
            constructor
            · rw [hc1, hv1]
              have h1 := hstOk.1
              simp only [beq_iff_eq] at h1 ⊢
              simp [h1]
            · rw [hv1, hPv]
              have h2 := hstOk.2
              simp only [decide_eq_true_eq] at h2 ⊢
              simp [List.nodup_append, h2, hg]
          have hmono1 : ∀ st0, getStatus s taskId = some st0 →
              ∀ v, v ∈ st0.verifierIds → v ∈ st1.verifierIds := by
            intro st0 h0 v hv
            rw [hst] at h0
            injection h0 with h0e
            rw [← h0e] at hv
            rw [hv1]
            exact List.mem_append_left _ hv
          have hvin1 : P.verifierId ∈ st1.verifierIds := by
            rw [hv1]
            simp
          have hnotinP : P.verifierId ∉ proofVerifiers (getProofsForTask s taskId) := by
            rw [hPv]
            exact hnotin0
          have hbase : nodeInv s2 = true :=
            nodeInv_store_set s taskId P st1 hinv hok1 hvin1 hmono1 hnotinP
          have hlk2 : getStatus s2 taskId = some st1 := getStatus_setStatus_self _ _ _
          have h3 : nodeInv s3 = true :=
            nodeInv_setStatus_same s2 taskId st1 st2 hbase hlk2 rfl rfl
          have hlk3 : getStatus s3 taskId = some st2 := getStatus_setStatus_self _ _ _
          have h4 : nodeInv s4 = true :=
            nodeInv_setStatus_same s3 taskId st2 st3 h3 hlk3 rfl rfl
          split
          · split
            · refine (nodeInv_fields _ s4 ?_ ?_).trans h4 <;> rfl
            · split
              next pf hpf =>
                lift_lets
                intro pr
                have h5 : nodeInv s5F = true := (nodeInv_fields s5F s4 rfl rfl).trans h4
                have hpr : nodeInv pr.1 = true := inv_ppm hash now s5F pf h5
                split
                next response hresp =>
                  dsimp only
                  split
                  next commitMsg hcm =>
                    exact inv_nhc hash now _ commitMsg
                      ((nodeInv_fields _ _ rfl rfl).trans hpr)
                  next hcm => exact (nodeInv_fields _ _ rfl rfl).trans hpr
                next hresp => exact hpr
              next hpf =>
                refine (nodeInv_fields _ s4 ?_ ?_).trans h4 <;> rfl
          · split
            · refine nodeInv_setStatus_same s3 taskId st2 _ h3 hlk3 ?_ ?_ <;> rfl
            · refine nodeInv_setStatus_same s3 taskId st2 _ h3 hlk3 ?_ ?_ <;> rfl

/-- C4 (amended): ordinary proof ingestion preserves the verifier
bookkeeping invariant — each task record's proofCount equals the length
of its verifierIds, the verifier list is duplicate-free, and stored
proofs come from distinct verifiers covered by the record — thanks to
the handler's duplicate-verifier guard; supplementary ingestion
preserves it only under the extra hypothesis that the supplementary
proof's verifier is not already recorded, because the handler appends
the verifier without any duplicate check of its own. -/
theorem verifier_invariants_preserved (hash : QoSProof → String) (now : Int)
    (s : NodeState) (proof : QoSProof) (taskId : String) :
    (nodeInv s = true → nodeInv (handleQoSProof hash now s proof) = true) ∧
    (nodeInv s = true →
      (∀ st, getStatus s taskId = some st → proof.verifierId ∉ st.verifierIds) →
      nodeInv (handleSupplementaryProof hash now s taskId proof) = true) :=
  ⟨inv_hqp hash now s proof, inv_hsp hash now s taskId proof⟩

/-- A follower whose `task-1` awaits supplementary verification of a
structural codec conflict between verifiers `v1` and `v2`. -/
def c4Node : NodeState :=
  { mkNode "node-f1" false 4 with
    taskStatuses := [("task-1",
      { taskId := "task-1", state := .awaitingSupplementary, proofCount := 2
        verifierIds := ["v1", "v2"], createdAt := 0, updatedAt := 0
        validationInfo := some { conflictType := some ConflictType.structural
                                 conflictDetails := some { reason := some "编码格式不一致" } } })]
    taskProofs := [("task-1", [sampleProof "v1" "H.264" 5000 85, sampleProof "v2" "H.265" 5000 85])] }

/-- C4 counterexample: a supplementary proof from verifier `v1`, already
on the task's verifier list, is ingested without any duplicate check:
the verifier list becomes `["v1","v2","v1"]`, no longer duplicate-free,
although the count equality (3 verifiers, proofCount 3) still holds. -/
theorem supplementary_duplicates_verifier :
    nodeInv c4Node = true ∧
    (getStatus (handleSupplementaryProof stubHash 2000 c4Node "task-1"
        (sampleProof "v1" "H.264" 5000 85)) "task-1").map (fun st => st.verifierIds)
      = some ["v1", "v2", "v1"] ∧
    (getStatus (handleSupplementaryProof stubHash 2000 c4Node "task-1"
        (sampleProof "v1" "H.264" 5000 85)) "task-1").map
        (fun st => st.proofCount == st.verifierIds.length) = some true ∧
    (getStatus (handleSupplementaryProof stubHash 2000 c4Node "task-1"
        (sampleProof "v1" "H.264" 5000 85)) "task-1").map
        (fun st => decide st.verifierIds.Nodup) = some false := by
  decide

/-- Witness for C4 at concrete inputs: both ingestion paths preserve the
invariant when the incoming verifier `v3` is fresh. -/
theorem verifier_invariants_preserved_witness :
    nodeInv (handleQoSProof stubHash 2000 c4Node (sampleProof "v3" "H.264" 5000 85)) = true ∧
    nodeInv (handleSupplementaryProof stubHash 2000 c4Node "task-1"
      (sampleProof "v3" "H.264" 5000 85)) = true := by
  constructor
  · exact (verifier_invariants_preserved stubHash 2000 c4Node
      (sampleProof "v3" "H.264" 5000 85) "task-1").1 (by decide)
  · exact (verifier_invariants_preserved stubHash 2000 c4Node
      (sampleProof "v3" "H.264" 5000 85) "task-1").2 (by decide) (by decide)
